import Mathlib

/-!
# Verification of the floorball game scheduler (generate-match-players.py)

Shallow embedding of the roster allocation engine. Python sets of players are
modelled as lists without duplicate names (Player equality and hashing in the
source are name-based); set iteration order is made explicit through list
order, and the `random.choice` draw is modelled by an arbitrary choice
function `choose : Nat → List Player → Nat` threaded with a call counter, so
that universally quantified theorems cover every random seed. Loops whose
termination is not structural carry explicit fuel; exhausted fuel models
non-termination.
-/

namespace Scheduler

/-- A player, as in the `Player` dataclass: identified by `name`, carrying a
`pool` label.  The `games` history is stored separately (in the engine state)
keyed by the whole `(name, pool)` value, matching per-object attribute
storage in Python. -/
structure Player where
  name : String
  pool : String
deriving DecidableEq, Repr

/-- `Player.__eq__`: equality is name-based only. -/
def playerEq (a b : Player) : Bool :=
  a.name == b.name

/-- A game (the `Game` dataclass).  `week` is `start_date.isocalendar()[1]`,
`key` is `start_date.strftime("%Y-%m-%d %H:%M")`, `isHome` is the truthiness
of `re.match("Sk.ndalshallen", location)`.  `gid` identifies the event (start
date and location in the source); distinct events in a run get distinct gids. -/
structure GameE where
  gid : Nat
  week : Nat
  key : String
  isHome : Bool
  year : Nat
deriving DecidableEq, Repr

/-- A player history: the `games` attribute of one `Player` object. -/
abbrev Hist := Player → List GameE

/-- `Game.is_same_weekend`: same ISO calendar week. -/
def is_same_weekend (a b : GameE) : Bool :=
  a.week == b.week

/-- `Game.player_count`: `{2012: 16, 2013: 9}[self.year]`, `none` models the
`KeyError` for any other year. -/
def player_countOf (year : Nat) : Option Nat :=
  if year == 2012 then some 16
  else if year == 2013 then some 9
  else none

/-- `Game.pool_counts`: the pool→quota table per year, in insertion order;
`none` models the `KeyError` for an unknown year. -/
def pool_countsOf (year : Nat) : Option (List (String × Nat)) :=
  if year == 2012 then
    some [("p12-rutin", 6), ("p12-junior", 3), ("p13-stark", 3), ("p13-mellan", 5)]
  else if year == 2013 then
    some [("p13-stark", 2), ("p13-mellan", 5), ("p13-junior", 2)]
  else none

/-- `Player.games_count` = `len(self.games)`. -/
def games_count (h : List GameE) : Nat :=
  h.length

/-- `Player.home_games_count`. -/
def home_games_count (h : List GameE) : Nat :=
  (h.filter (fun g => g.isHome)).length

/-- `Player.away_games_count`. -/
def away_games_count (h : List GameE) : Nat :=
  (h.filter (fun g => !g.isHome)).length

/-- `Player.is_trainer_kid`: `self.name.endswith("*")`, i.e. the last
character of the name is an asterisk. -/
def is_trainer_kid (p : Player) : Bool :=
  p.name.data.getLast? == some '*'

/-- `Player.small_games_count`: games in the history whose `player_count`
is 9 (histories built by the engine only hold games with a known year, so
the guarded lookup agrees with the source's direct attribute access). -/
def small_games_count (h : List GameE) : Nat :=
  (h.filter (fun g => player_countOf g.year == some 9)).length

/-- `Player.large_games_count`: games whose `player_count` is 16. -/
def large_games_count (h : List GameE) : Nat :=
  (h.filter (fun g => player_countOf g.year == some 16)).length

/-- One step of the fold in `get_players_with_least_games`: the two
sequential `if` statements of the loop body, with the Python set `nominated`
as a list with membership-guarded insertion. -/
def gplgStep (cnt : Player → Nat) (acc : List Player × Nat) (p : Player) :
    List Player × Nat :=
  let acc1 := if cnt p < acc.2 then ([p], cnt p) else acc
  if cnt p == acc1.2 then
    (if acc1.1.any (fun q => playerEq q p) then acc1.1 else acc1.1 ++ [p], acc1.2)
  else acc1

/-- `get_players_with_least_games`, with the metric passed as a function
(the source passes the property name and uses `getattr`).  Note the
`least_games = 1000` sentinel of the source. -/
def get_players_with_least_games (cnt : Player → Nat) (players : List Player) :
    List Player :=
  (players.foldl (gplgStep cnt) ([], 1000)).1

/-- `players_not_playing_same_weekend`.  The loop over `reversed(p.games)`
adds `p` whenever it meets an entry in a different ISO week (the trailing
`continue` is a no-op), so membership is: some history entry is in a
different week than the game. -/
def players_not_playing_same_weekend (h : Hist) (game : GameE)
    (players : List Player) : List Player :=
  players.filter (fun p => (h p).any (fun g => !(is_same_weekend game g)))

/-- `only_trainer_kids`. -/
def only_trainer_kids (players : List Player) : List Player :=
  players.filter is_trainer_kid

/-- Adding a name to the roster, a Python `set.add` keyed by player name. -/
def rosterAdd (r : List String) (n : String) : List String :=
  if r.contains n then r else n :: r

/-- Helper for `dedupByName`: drop every player whose name was already
seen. -/
def dedupByNameAux (seen : List String) : List Player → List Player
  | [] => []
  | p :: ps =>
    if seen.contains p.name then dedupByNameAux seen ps
    else p :: dedupByNameAux (p.name :: seen) ps

/-- `set(pools[pool_name])`: deduplication by name-based equality/hashing,
keeping the first occurrence of each name (Python `set.add` of an equal
element is a no-op). -/
def dedupByName (l : List Player) : List Player :=
  dedupByNameAux [] l

/-- `list.remove` / set removal of a picked player: removes the first
name-equal element. -/
def eraseByName (l : List Player) (n : String) : List Player :=
  l.eraseP (fun q => q.name == n)

/-- Append a game to one player object's history. -/
def histAppend (h : Hist) (p : Player) (g : GameE) : Hist :=
  fun q => if q = p then h q ++ [g] else h q

/-- Ghost record of one quota fill loop's exit, for the post-run report. -/
structure QuotaExit where
  pool : String
  quota : Nat
  newCnt : Nat
  rosterLen : Nat
  exhausted : Bool
deriving DecidableEq, Repr

/-- Mutable state while one game is being set up: the game's roster (the
`self.players` set, as names), all players' histories, the random-call
counter, and the ghost log of quota exits. -/
structure St where
  roster : List String
  hist : Hist
  ctr : Nat
  log : List QuotaExit

/-- The grouping metric in `add_players`: `small_games_count` when the
event capacity is 9, else `large_games_count`. -/
def groupCnt (cap : Nat) (h : Hist) (p : Player) : Nat :=
  if cap == 9 then small_games_count (h p) else large_games_count (h p)

/-- Insertion into a sorted list of naturals. -/
def insertSorted (n : Nat) : List Nat → List Nat
  | [] => [n]
  | m :: ms => if n ≤ m then n :: m :: ms else m :: insertSorted n ms

/-- `sorted(list(groups.keys()))`. -/
def sortNat (l : List Nat) : List Nat :=
  l.foldr insertSorted []

/-- The inner `while` of `add_players`, draining one group: while the quota
is unmet, the roster is not at capacity and the group is non-empty, draw a
random member, move it into the roster and its own history, and remove it
from the group and the per-quota pool copy.  Fuel is the group length at
entry, which bounds the iteration count. -/
def drain (choose : Nat → List Player → Nat) (g : GameE) (count cap : Nat) :
    Nat → List Player → List Player → Nat → St → List Player × Nat × St
  | 0, _, players, newCnt, st => (players, newCnt, st)
  | fuel + 1, group, players, newCnt, st =>
    if newCnt ≠ count ∧ st.roster.length ≠ cap ∧ group ≠ [] then
      let i := choose st.ctr group % group.length
      let p := group.getD i ⟨"", ""⟩
      let st' : St :=
        { roster := rosterAdd st.roster p.name
          hist := histAppend st.hist p g
          ctr := st.ctr + 1
          log := st.log }
      drain choose g count cap fuel (eraseByName group p.name)
        (eraseByName players p.name) (newCnt + 1) st'
    else (players, newCnt, st)

/-- Draining the groups of `add_players` in ascending key order. -/
def drainAll (choose : Nat → List Player → Nat) (g : GameE) (count cap : Nat) :
    List (List Player) → List Player → Nat → St → List Player × Nat × St
  | [], players, newCnt, st => (players, newCnt, st)
  | grp :: rest, players, newCnt, st =>
    let r := drain choose g count cap grp.length grp players newCnt st
    drainAll choose g count cap rest r.1 r.2.1 r.2.2

/-- `add_players(nominated)`: group the nominated players by their
small/large games count (computed once, on entry), then drain the groups in
ascending key order. -/
def add_players (choose : Nat → List Player → Nat) (g : GameE) (count cap : Nat)
    (nominated players : List Player) (newCnt : Nat) (st : St) :
    List Player × Nat × St :=
  let keys := sortNat ((nominated.map (groupCnt cap st.hist)).dedup)
  let groups := keys.map (fun k =>
    nominated.filter (fun p => groupCnt cap st.hist p == k))
  drainAll choose g count cap groups players newCnt st

/-- `players - set(self.players)` followed by `get_least_played_players`. -/
def candidatesOf (h : Hist) (roster : List String) (players : List Player) :
    List Player :=
  get_players_with_least_games (fun p => games_count (h p))
    (players.filter (fun p => !(roster.contains p.name)))

/-- The trainer-kid narrowing: with fewer than two rostered players, narrow
to trainer kids when any are among the candidates. -/
def narrowTK (rosterLen : Nat) (cands : List Player) : List Player :=
  if rosterLen < 2 ∧ only_trainer_kids cands ≠ [] then only_trainer_kids cands
  else cands

/-- The selection cascade of `Game.setup` (lines 151–171): least home/away
games among the candidates as priority, then the four-way `if` chain over
the two not-same-weekend short lists, the priority candidates, and the
candidates. -/
def chosenSubset (h : Hist) (game : GameE) (cands : List Player) : List Player :=
  let pri :=
    if game.isHome then
      get_players_with_least_games (fun p => home_games_count (h p)) cands
    else
      get_players_with_least_games (fun p => away_games_count (h p)) cands
  let s1 := players_not_playing_same_weekend h game pri
  if s1 ≠ [] then s1
  else
    let s2 := players_not_playing_same_weekend h game cands
    if s2 ≠ [] then s2
    else if pri ≠ [] then pri
    else cands

/-- The outer per-quota `while` of `Game.setup`: while the quota is unmet,
the pool copy is non-empty and the roster is not at capacity, compute the
candidate set, pick the cascade winner and hand it to `add_players`.  `none`
models a spinning loop (fuel exhausted). -/
def quotaLoop (choose : Nat → List Player → Nat) (g : GameE) (count cap : Nat) :
    Nat → List Player → Nat → St → Option (List Player × Nat × St)
  | 0, _, _, _ => none
  | fuel + 1, players, newCnt, st =>
    if newCnt ≠ count ∧ players ≠ [] ∧ st.roster.length ≠ cap then
      let cands := narrowTK st.roster.length (candidatesOf st.hist st.roster players)
      let chosen := chosenSubset st.hist g cands
      let r := add_players choose g count cap chosen players newCnt st
      quotaLoop choose g count cap fuel r.1 r.2.1 r.2.2
    else some (players, newCnt, st)

/-- `pools[pool_name]`, `none` modelling the `KeyError`. -/
def lookupPool (pools : List (String × List Player)) (n : String) :
    Option (List Player) :=
  (pools.find? (fun e => e.1 == n)).map (fun e => e.2)

/-- The per-pool loop of `Game.setup`: for each `(pool_name, count)` of the
format's quota table, build the availability-filtered pool copy and run the
fill loop, recording the quota exit in the ghost log.  Errors carry the
state at the raise, as Python mutations persist when an exception
propagates. -/
def setupQuotas (choose : Nat → List Player → Nat) (fuel : Nat)
    (pools : List (String × List Player)) (unavail : String → List String)
    (g : GameE) (cap : Nat) :
    List (String × Nat) → St → Option (Except (String × St) St)
  | [], st => some (.ok st)
  | (poolName, count) :: rest, st =>
    match lookupPool pools poolName with
    | none => some (.error ("KeyError: pool " ++ poolName, st))
    | some members =>
      let avail := (dedupByName members).filter
        (fun p => !((unavail p.name).contains g.key))
      match quotaLoop choose g count cap fuel avail 0 st with
      | none => none
      | some (plF, nF, stF) =>
        let e : QuotaExit :=
          { pool := poolName, quota := count, newCnt := nF
            rosterLen := stF.roster.length, exhausted := plF.isEmpty }
        setupQuotas choose fuel pools unavail g cap rest
          { stF with log := stF.log ++ [e] }

/-- `Game.setup`: look up the capacity and quota table for the game's year
(the first use raises `KeyError` for an unknown year, before any mutation
for this game), then run the per-pool loop. -/
def setup (choose : Nat → List Player → Nat) (fuel : Nat)
    (pools : List (String × List Player)) (unavail : String → List String)
    (g : GameE) (st : St) : Option (Except (String × St) St) :=
  match pool_countsOf g.year, player_countOf g.year with
  | some pcs, some cap => setupQuotas choose fuel pools unavail g cap pcs st
  | _, _ => some (.error ("KeyError: year", st))

/-- Per-game result of a run: the game, its pre-seeded roster (from
`load_previous_games`), its roster after allocation, and the quota log. -/
structure GDone where
  game : GameE
  pre : List String
  roster : List String
  log : List QuotaExit

/-- Run-level state: processed games, all histories, the random counter. -/
structure RunSt where
  done : List GDone
  hist : Hist
  ctr : Nat

/-- Outcome of a run: normal completion, an uncaught exception with the
state at the raise, or non-termination. -/
inductive RunOut where
  | ok (s : RunSt)
  | err (msg : String) (s : RunSt)
  | spin

/-- The pre-seeded roster of a game: names added one by one to the empty
set, as `load_previous_games` does. -/
def initRoster (pre : List String) : List String :=
  pre.foldl rosterAdd []

/-- The main loop over games: each game's roster starts from its pre-seeded
entries, then `setup` runs; an exception aborts the run with mutations up to
that point preserved. -/
def runGames (choose : Nat → List Player → Nat) (fuel : Nat)
    (pools : List (String × List Player)) (unavail : String → List String) :
    List (GameE × List String) → RunSt → RunOut
  | [], s => .ok s
  | (g, pre) :: rest, s =>
    let r0 := initRoster pre
    match setup choose fuel pools unavail g ⟨r0, s.hist, s.ctr, []⟩ with
    | none => .spin
    | some (.error (m, stF)) =>
      .err m ⟨s.done ++ [⟨g, r0, stF.roster, stF.log⟩], stF.hist, stF.ctr⟩
    | some (.ok stF) =>
      runGames choose fuel pools unavail rest
        ⟨s.done ++ [⟨g, r0, stF.roster, stF.log⟩], stF.hist, stF.ctr⟩

/-- A whole allocation run from empty histories, as `main` performs it. -/
def runAll (choose : Nat → List Player → Nat) (fuel : Nat)
    (pools : List (String × List Player)) (unavail : String → List String)
    (games : List (GameE × List String)) : RunOut :=
  runGames choose fuel pools unavail games ⟨[], fun _ => [], 0⟩

/-! ## Spec-side definitions

These follow the specification's wording, to be compared with the
definitions translated from the source. -/

/-- Spec wording: the subset of a set with minimum value of a metric
(ties included), in order. -/
def leastByMetric (cnt : Player → Nat) (l : List Player) : List Player :=
  l.filter (fun p => l.all (fun q => decide (cnt p ≤ cnt q)))

/-- Spec wording: the first non-empty entry of a cascade of subsets
(empty if all are empty). -/
def firstNonempty : List (List Player) → List Player
  | [] => []
  | l :: ls => if l ≠ [] then l else firstNonempty ls

/-- Spec wording of the selection cascade (§4.2.e / claim C9): `priority`
is the minimum home-games (home event) or minimum away-games (away event)
subset of `leastPlayed`, and the drawn subset is the first non-empty of
`notSameWeekend(priority)`, `notSameWeekend(leastPlayed)`, `priority`,
`leastPlayed`. -/
def specCascade (h : Hist) (game : GameE) (leastPlayed : List Player) :
    List Player :=
  let priority :=
    if game.isHome then leastByMetric (fun p => home_games_count (h p)) leastPlayed
    else leastByMetric (fun p => away_games_count (h p)) leastPlayed
  firstNonempty
    [players_not_playing_same_weekend h game priority,
     players_not_playing_same_weekend h game leastPlayed,
     priority, leastPlayed]

/-! ## Concrete fixtures

Small concrete runs used by counterexamples and witnesses. -/

/-- A deterministic stand-in for the random source: always draw index 0. -/
def chooseZ : Nat → List Player → Nat := fun _ _ => 0

/-- An empty availability index. -/
def noUnav : String → List String := fun _ => []

/-- Shorthand player constructor. -/
def mkP (n pl : String) : Player := ⟨n, pl⟩

/-- A 2013-format (capacity 9) away game. -/
def g13 : GameE := ⟨1, 40, "k1", false, 2013⟩

/-- A second 2013-format game in another week. -/
def g13b : GameE := ⟨2, 41, "k2", false, 2013⟩

/-- A game whose year has no declared capacity or quota table. -/
def gBad : GameE := ⟨3, 42, "k3", false, 2014⟩

/-- A pool registry covering the three 2013 pools, two/five/two members. -/
def poolsStd : List (String × List Player) :=
  [("p13-stark", [mkP "s1" "p13-stark", mkP "s2" "p13-stark"]),
   ("p13-mellan", [mkP "m1" "p13-mellan", mkP "m2" "p13-mellan",
                   mkP "m3" "p13-mellan", mkP "m4" "p13-mellan",
                   mkP "m5" "p13-mellan"]),
   ("p13-junior", [mkP "j1" "p13-junior", mkP "j2" "p13-junior"])]

/-- Like `poolsStd` with an extra member `x` in `p13-stark`. -/
def poolsB : List (String × List Player) :=
  [("p13-stark", [mkP "x" "p13-stark", mkP "s1" "p13-stark",
                  mkP "s2" "p13-stark"]),
   ("p13-mellan", [mkP "m1" "p13-mellan", mkP "m2" "p13-mellan",
                   mkP "m3" "p13-mellan", mkP "m4" "p13-mellan",
                   mkP "m5" "p13-mellan"]),
   ("p13-junior", [mkP "j1" "p13-junior", mkP "j2" "p13-junior"])]

/-- Like `poolsStd` with an extra member `x` in `p13-mellan`. -/
def poolsC : List (String × List Player) :=
  [("p13-stark", [mkP "s1" "p13-stark", mkP "s2" "p13-stark"]),
   ("p13-mellan", [mkP "x" "p13-mellan", mkP "a" "p13-mellan",
                   mkP "b" "p13-mellan", mkP "c" "p13-mellan",
                   mkP "d" "p13-mellan", mkP "e" "p13-mellan"]),
   ("p13-junior", [mkP "j1" "p13-junior", mkP "j2" "p13-junior"])]

/-- A registry whose only pool is a two-member `p13-stark`. -/
def poolsF : List (String × List Player) :=
  [("p13-stark", [mkP "x" "p13-stark", mkP "y" "p13-stark"])]

/-- Availability index marking `x` as unavailable for `g13`. -/
def unavX : String → List String := fun n => if n == "x" then ["k1"] else []

/-- Which constructor a run ended in: 0 ok, 1 error, 2 spinning. -/
def outKind : RunOut → Nat
  | .ok _ => 0
  | .err _ _ => 1
  | .spin => 2

/-- The processed games' rosters of a run outcome. -/
def doneRosters : RunOut → List (List String)
  | .ok s => s.done.map (fun d => d.roster)
  | .err _ s => s.done.map (fun d => d.roster)
  | .spin => []

/-- The processed games' quota logs of a run outcome. -/
def doneLogs : RunOut → List (List QuotaExit)
  | .ok s => s.done.map (fun d => d.log)
  | .err _ s => s.done.map (fun d => d.log)
  | .spin => []

/-- The final history length (games count) of one player object. -/
def histLenAt : RunOut → Player → Option Nat
  | .ok s, p => some (s.hist p).length
  | .err _ s, p => some (s.hist p).length
  | .spin, _ => none

/-- Run for the C1 counterexample: a 2013 game pre-seeded with ten locked
entries, over the standard pools. -/
def runA : RunOut :=
  runAll chooseZ 100 poolsStd noUnav
    [(g13, ["p1", "p2", "p3", "p4", "p5", "p6", "p7", "p8", "p9", "p10"])]

/-- Run for the C2 counterexample: a 2013 game pre-seeded with the locked
entry `x`, where `x` is also a `p13-stark` pool member. -/
def runB : RunOut := runAll chooseZ 100 poolsB noUnav [(g13, ["x"])]

/-- Run for the C3 counterexample: two 2013 games, both pre-seeded with the
locked entry `x`, where `x` is also a `p13-mellan` pool member with no
availability restriction. -/
def runC : RunOut :=
  runAll chooseZ 100 poolsC noUnav [(g13, ["x"]), (g13b, ["x"])]

/-- Run for the C7 counterexample: a valid 2013 game followed by a game of
an unknown year. -/
def runE : RunOut := runAll chooseZ 100 poolsStd noUnav [(g13, []), (gBad, [])]

/-- Run with `x` (a `p13-stark` member) unavailable for the only game. -/
def runD : RunOut := runAll chooseZ 100 poolsB unavX [(g13, [])]

/-- A clean complete run over the standard pools, used by witnesses. -/
def runW : RunOut := runAll chooseZ 100 poolsStd noUnav [(g13, [])]

/-! ## C3 invariant definitions -/

/-- Pre-event games count of a player object during the processing of game
`g`: the history length not counting a pick for `g` itself. -/
def preCnt (g : GameE) (h : Hist) (p : Player) : Nat :=
  (h p).length - (if g ∈ h p then 1 else 0)

/-- The fairness invariant maintained while one game `g` is being set up,
for two specific player objects `x` and `y`:
roster membership of each name coincides with having been picked for `g`;
pre-event counts differ by at most one; and a player picked while the other
is not was (weakly) behind at its pick. -/
def CInv (g : GameE) (x y : Player) (st : St) : Prop :=
  (x.name ∈ st.roster ↔ g ∈ st.hist x) ∧
  (y.name ∈ st.roster ↔ g ∈ st.hist y) ∧
  preCnt g st.hist x ≤ preCnt g st.hist y + 1 ∧
  preCnt g st.hist y ≤ preCnt g st.hist x + 1 ∧
  (g ∈ st.hist x → g ∉ st.hist y → preCnt g st.hist x ≤ preCnt g st.hist y) ∧
  (g ∈ st.hist y → g ∉ st.hist x → preCnt g st.hist y ≤ preCnt g st.hist x)

/-! ## C8 invariant definitions -/

/-- During the setup of game `g`: any player object whose history already
holds `g` has its name on the roster (so it cannot be picked again). -/
def HistInv (g : GameE) (st : St) : Prop :=
  ∀ q : Player, g.gid ∈ (st.hist q).map GameE.gid → q.name ∈ st.roster

/-- No player object's history holds the same event twice. -/
def HistNodup (h : Hist) : Prop :=
  ∀ q : Player, ((h q).map GameE.gid).Nodup

/-! ## Basic lemmas about the building blocks -/

theorem playerEq_iff (a b : Player) : playerEq a b = true ↔ a.name = b.name := by
  simp [playerEq]

theorem contains_iff (r : List String) (n : String) :
    r.contains n = true ↔ n ∈ r :=
  List.elem_iff

theorem mem_rosterAdd_of_mem (r : List String) (n m : String) (h : m ∈ r) :
    m ∈ rosterAdd r n := by
  unfold rosterAdd
  split
  · exact h
  · exact List.mem_cons_of_mem _ h

theorem mem_rosterAdd_self (r : List String) (n : String) : n ∈ rosterAdd r n := by
  unfold rosterAdd
  split
  · next h => exact (contains_iff r n).1 h
  · exact List.mem_cons_self _ _

theorem mem_rosterAdd_iff (r : List String) (n m : String) :
    m ∈ rosterAdd r n ↔ m = n ∨ m ∈ r := by
  unfold rosterAdd
  split
  · next h =>
    constructor
    · exact fun hm => Or.inr hm
    · rintro (rfl | hm)
      · exact (contains_iff r m).1 h
      · exact hm
  · simp [List.mem_cons]

theorem rosterAdd_length_le (r : List String) (n : String) :
    (rosterAdd r n).length ≤ r.length + 1 := by
  unfold rosterAdd
  split
  · exact Nat.le_succ _
  · exact Nat.le_refl _

theorem rosterAdd_length_of_not_mem (r : List String) (n : String) (h : n ∉ r) :
    (rosterAdd r n).length = r.length + 1 := by
  unfold rosterAdd
  split
  · next hc => exact absurd ((contains_iff r n).1 hc) h
  · rfl

theorem rosterAdd_nodup (r : List String) (n : String) (h : r.Nodup) :
    (rosterAdd r n).Nodup := by
  unfold rosterAdd
  split
  · exact h
  · next hc =>
    exact List.nodup_cons.2 ⟨fun hm => hc ((contains_iff r n).2 hm), h⟩

theorem histAppend_self (hi : Hist) (p : Player) (g : GameE) :
    histAppend hi p g p = hi p ++ [g] := by
  simp [histAppend]

theorem histAppend_ne (hi : Hist) (p q : Player) (g : GameE) (h : q ≠ p) :
    histAppend hi p g q = hi q := by
  simp [histAppend, h]

theorem eraseByName_sublist (l : List Player) (n : String) :
    List.Sublist (eraseByName l n) l :=
  List.eraseP_sublist l

theorem mem_eraseByName_of_ne (l : List Player) (n : String) (q : Player)
    (h : q.name ≠ n) (hq : q ∈ l) : q ∈ eraseByName l n := by
  unfold eraseByName
  exact (List.mem_eraseP_of_neg (by simp [h])).2 hq

theorem eraseByName_names_ne (l : List Player) (n : String)
    (hnd : (l.map Player.name).Nodup) :
    ∀ q ∈ eraseByName l n, q.name ≠ n := by
  induction l with
  | nil => intro q hq; cases hq
  | cons p ps ih =>
    intro q hq
    unfold eraseByName at hq
    rw [List.eraseP_cons] at hq
    rw [List.map_cons, List.nodup_cons] at hnd
    by_cases hpn : p.name = n
    · have : (p.name == n) = true := by simp [hpn]
      rw [this] at hq
      simp only [cond_true] at hq
      intro hqn
      exact hnd.1 (by rw [hpn, ← hqn]; exact List.mem_map_of_mem _ hq)
    · have : (p.name == n) = false := by simp [hpn]
      rw [this] at hq
      simp only [cond_false] at hq
      rcases List.mem_cons.1 hq with rfl | hq'
      · exact hpn
      · exact ih hnd.2 q hq'

theorem pick_mem (group : List Player) (c : Nat) (h : group ≠ []) :
    group.getD (c % group.length) (Player.mk "" "") ∈ group := by
  have hlt : c % group.length < group.length :=
    Nat.mod_lt _ (List.length_pos.mpr h)
  rw [List.getD_eq_getElem?_getD, List.getElem?_eq_getElem hlt]
  exact List.getElem_mem hlt

/-! ## Lemmas about `get_players_with_least_games` -/

theorem gplg_fold_sublist (cnt : Player → Nat) :
    ∀ (l : List Player) (acc : List Player × Nat) (pre : List Player),
      List.Sublist acc.1 pre →
      List.Sublist ((l.foldl (gplgStep cnt) acc).1) (pre ++ l)
  | [], acc, pre, h => by simpa using h
  | p :: l, acc, pre, h => by
    have step : List.Sublist ((gplgStep cnt acc p).1) (pre ++ [p]) := by
      by_cases hlt : cnt p < acc.2
      · simp only [gplgStep, if_pos hlt]
        simp [playerEq]
      · simp only [gplgStep, if_neg hlt]
        by_cases heq : (cnt p == acc.2) = true
        · rw [if_pos heq]
          dsimp only
          by_cases hany : (acc.1.any fun q => playerEq q p) = true
          · rw [if_pos hany]
            exact h.trans (List.sublist_append_left pre [p])
          · rw [if_neg hany]
            exact List.Sublist.append h (List.Sublist.refl [p])
        · rw [if_neg heq]
          exact h.trans (List.sublist_append_left pre [p])
    have rec := gplg_fold_sublist cnt l (gplgStep cnt acc p) (pre ++ [p]) step
    simpa [List.append_assoc] using rec

theorem gplg_sublist (cnt : Player → Nat) (l : List Player) :
    List.Sublist (get_players_with_least_games cnt l) l := by
  have h := gplg_fold_sublist cnt l ([], 1000) [] (by simp)
  simpa [get_players_with_least_games] using h

theorem gplg_fold_min (cnt : Player → Nat) :
    ∀ (l : List Player) (acc : List Player × Nat),
      (∀ r ∈ acc.1, cnt r = acc.2) →
      ((l.foldl (gplgStep cnt) acc).2 ≤ acc.2 ∧
        (∀ r ∈ (l.foldl (gplgStep cnt) acc).1,
          cnt r = (l.foldl (gplgStep cnt) acc).2) ∧
        ∀ z ∈ l, (l.foldl (gplgStep cnt) acc).2 ≤ cnt z)
  | [], acc, h => ⟨Nat.le_refl _, h, by intro z hz; cases hz⟩
  | p :: l, acc, h => by
    have hstep : (∀ r ∈ (gplgStep cnt acc p).1, cnt r = (gplgStep cnt acc p).2) ∧
        (gplgStep cnt acc p).2 ≤ acc.2 ∧ (gplgStep cnt acc p).2 ≤ cnt p := by
      unfold gplgStep
      dsimp only
      split
      · next hlt =>
        split
        · next heq =>
          dsimp only
          refine ⟨?_, Nat.le_of_lt hlt, Nat.le_refl _⟩
          split
          · intro r hr
            rcases List.mem_singleton.1 hr with rfl
            rfl
          · intro r hr
            rcases List.mem_append.1 hr with hr' | hr'
            · rcases List.mem_singleton.1 hr' with rfl; rfl
            · rcases List.mem_singleton.1 hr' with rfl; rfl
        · next heq => exact absurd (by simp) heq
      · next hlt =>
        have hge : acc.2 ≤ cnt p := Nat.le_of_not_lt hlt
        split
        · next heq =>
          dsimp only
          have hcp : cnt p = acc.2 := by simpa using heq
          refine ⟨?_, Nat.le_refl _, by rw [hcp]⟩
          split
          · exact h
          · intro r hr
            rcases List.mem_append.1 hr with hr' | hr'
            · exact h r hr'
            · rcases List.mem_singleton.1 hr' with rfl; exact hcp
        · exact ⟨h, Nat.le_refl _, hge⟩
    have rec := gplg_fold_min cnt l (gplgStep cnt acc p) hstep.1
    refine ⟨rec.1.trans hstep.2.1, rec.2.1, ?_⟩
    intro z hz
    rcases List.mem_cons.1 hz with rfl | hz'
    · exact rec.1.trans hstep.2.2
    · exact rec.2.2 z hz'

theorem gplg_min (cnt : Player → Nat) (l : List Player) (p : Player)
    (hp : p ∈ get_players_with_least_games cnt l) :
    ∀ z ∈ l, cnt p ≤ cnt z := by
  obtain ⟨h1, h2, h3⟩ := gplg_fold_min cnt l ([], 1000) (by simp)
  intro z hz
  unfold get_players_with_least_games at hp
  calc cnt p = (l.foldl (gplgStep cnt) ([], 1000)).2 := h2 p hp
    _ ≤ cnt z := h3 z hz

/-! ## Sublist structure of the cascade -/

theorem only_trainer_kids_sublist (l : List Player) :
    List.Sublist (only_trainer_kids l) l :=
  List.filter_sublist l

theorem pnsw_sublist (h : Hist) (g : GameE) (l : List Player) :
    List.Sublist (players_not_playing_same_weekend h g l) l :=
  List.filter_sublist l

theorem narrowTK_sublist (n : Nat) (c : List Player) :
    List.Sublist (narrowTK n c) c := by
  unfold narrowTK
  split
  · exact only_trainer_kids_sublist c
  · exact List.Sublist.refl c

theorem chosenSubset_sublist (h : Hist) (g : GameE) (c : List Player) :
    List.Sublist (chosenSubset h g c) c := by
  unfold chosenSubset
  dsimp only
  split
  · split
    · exact (pnsw_sublist h g _).trans (gplg_sublist _ c)
    · split
      · exact pnsw_sublist h g c
      · split
        · exact gplg_sublist _ c
        · exact List.Sublist.refl c
  · split
    · exact (pnsw_sublist h g _).trans (gplg_sublist _ c)
    · split
      · exact pnsw_sublist h g c
      · split
        · exact gplg_sublist _ c
        · exact List.Sublist.refl c

theorem candidatesOf_sublist (h : Hist) (r : List String) (pl : List Player) :
    List.Sublist (candidatesOf h r pl) pl :=
  (gplg_sublist _ _).trans (List.filter_sublist pl)

theorem candidatesOf_not_rostered (h : Hist) (r : List String) (pl : List Player)
    (p : Player) (hp : p ∈ candidatesOf h r pl) : p.name ∉ r := by
  have hmem := (gplg_sublist _ _).subset hp
  have := (List.mem_filter.1 hmem).2
  intro hr
  rw [Bool.not_eq_true', ← Bool.not_eq_true] at this
  exact this ((contains_iff _ _).2 hr)

/-! ## Lemmas about `dedupByName` -/

theorem dedupByNameAux_sublist (l : List Player) :
    ∀ seen, List.Sublist (dedupByNameAux seen l) l := by
  induction l with
  | nil => intro seen; exact List.Sublist.refl []
  | cons p ps ih =>
    intro seen
    unfold dedupByNameAux
    split
    · exact (ih seen).trans (List.sublist_cons_self p ps)
    · exact List.Sublist.cons₂ p (ih (p.name :: seen))

theorem dedupByNameAux_names (l : List Player) :
    ∀ seen, ((dedupByNameAux seen l).map Player.name).Nodup ∧
      ∀ q ∈ dedupByNameAux seen l, q.name ∉ seen := by
  induction l with
  | nil => intro seen; exact ⟨List.nodup_nil, by intro q hq; cases hq⟩
  | cons p ps ih =>
    intro seen
    unfold dedupByNameAux
    split
    · exact ih seen
    · next hns =>
      obtain ⟨ihn, ihs⟩ := ih (p.name :: seen)
      constructor
      · rw [List.map_cons, List.nodup_cons]
        refine ⟨?_, ihn⟩
        intro hmem
        rcases List.mem_map.1 hmem with ⟨q, hq, hqn⟩
        exact ihs q hq (by rw [hqn]; exact List.mem_cons_self _ _)
      · intro q hq
        rcases List.mem_cons.1 hq with rfl | hq'
        · intro hs; exact hns ((contains_iff seen q.name).2 hs)
        · intro hs; exact ihs q hq' (List.mem_cons_of_mem _ hs)

theorem dedupByName_names_nodup (l : List Player) :
    ((dedupByName l).map Player.name).Nodup :=
  (dedupByNameAux_names l []).1

theorem dedupByName_sublist (l : List Player) :
    List.Sublist (dedupByName l) l :=
  dedupByNameAux_sublist l []

theorem dedupByNameAux_eq_self (l : List Player) :
    ∀ seen, (l.map Player.name).Nodup → (∀ p ∈ l, p.name ∉ seen) →
      dedupByNameAux seen l = l := by
  induction l with
  | nil => intro seen _ _; rfl
  | cons p ps ih =>
    intro seen hnd hs
    rw [List.map_cons, List.nodup_cons] at hnd
    unfold dedupByNameAux
    split
    · next hc =>
      exact absurd ((contains_iff seen p.name).1 hc)
        (hs p (List.mem_cons_self _ _))
    · rw [ih (p.name :: seen) hnd.2]
      intro q hq
      intro hmem
      rcases List.mem_cons.1 hmem with hqe | hq'
      · exact hnd.1 (hqe ▸ List.mem_map_of_mem _ hq)
      · exact hs q (List.mem_cons_of_mem _ hq) hq'

theorem dedupByName_eq_self (l : List Player) (hnd : (l.map Player.name).Nodup) :
    dedupByName l = l :=
  dedupByNameAux_eq_self l [] hnd (by intro p _ h; cases h)

/-! ## Core structural lemmas about `drain` -/

theorem drain_log (choose : Nat → List Player → Nat) (g : GameE) (count cap : Nat) :
    ∀ (fuel : Nat) (group players : List Player) (newCnt : Nat) (st : St),
      ((drain choose g count cap fuel group players newCnt st).2.2).log = st.log
  | 0, group, players, newCnt, st => rfl
  | fuel + 1, group, players, newCnt, st => by
    rw [drain]
    split
    · exact drain_log choose g count cap fuel _ _ _ _
    · rfl

theorem drain_roster_mono (choose : Nat → List Player → Nat) (g : GameE)
    (count cap : Nat) :
    ∀ (fuel : Nat) (group players : List Player) (newCnt : Nat) (st : St)
      (n : String), n ∈ st.roster →
      n ∈ ((drain choose g count cap fuel group players newCnt st).2.2).roster
  | 0, group, players, newCnt, st, n, h => h
  | fuel + 1, group, players, newCnt, st, n, h => by
    rw [drain]
    split
    · exact drain_roster_mono choose g count cap fuel _ _ _ _ n
        (mem_rosterAdd_of_mem _ _ _ h)
    · exact h

theorem drain_roster_new (choose : Nat → List Player → Nat) (g : GameE)
    (count cap : Nat) :
    ∀ (fuel : Nat) (group players : List Player) (newCnt : Nat) (st : St)
      (n : String),
      n ∈ ((drain choose g count cap fuel group players newCnt st).2.2).roster →
      n ∈ st.roster ∨ n ∈ group.map Player.name
  | 0, group, players, newCnt, st, n, h => Or.inl h
  | fuel + 1, group, players, newCnt, st, n, h => by
    rw [drain] at h
    split at h
    · next hcond =>
      have hrec := drain_roster_new choose g count cap fuel _ _ _ _ n h
      have hpm : group.getD (choose st.ctr group % group.length) (Player.mk "" "") ∈
          group := pick_mem group _ hcond.2.2
      rcases hrec with hr | hg
      · rcases (mem_rosterAdd_iff _ _ _).1 hr with rfl | hr'
        · exact Or.inr (List.mem_map_of_mem _ hpm)
        · exact Or.inl hr'
      · exact Or.inr (((eraseByName_sublist group _).map Player.name).subset hg)
    · exact Or.inl h

theorem drain_players_sublist (choose : Nat → List Player → Nat) (g : GameE)
    (count cap : Nat) :
    ∀ (fuel : Nat) (group players : List Player) (newCnt : Nat) (st : St),
      List.Sublist (drain choose g count cap fuel group players newCnt st).1 players
  | 0, group, players, newCnt, st => List.Sublist.refl players
  | fuel + 1, group, players, newCnt, st => by
    rw [drain]
    split
    · exact (drain_players_sublist choose g count cap fuel _ _ _ _).trans
        (eraseByName_sublist players _)
    · exact List.Sublist.refl players

theorem drain_hist_mono (choose : Nat → List Player → Nat) (g : GameE)
    (count cap : Nat) :
    ∀ (fuel : Nat) (group players : List Player) (newCnt : Nat) (st : St)
      (q : Player) (gm : GameE), gm ∈ st.hist q →
      gm ∈ ((drain choose g count cap fuel group players newCnt st).2.2).hist q
  | 0, _, _, _, _, _, _, h => h
  | fuel + 1, group, players, newCnt, st, q, gm, h => by
    rw [drain]
    split
    · refine drain_hist_mono choose g count cap fuel _ _ _ _ q gm ?_
      unfold histAppend
      dsimp only
      split
      · exact List.mem_append_left _ h
      · exact h
    · exact h

theorem drain_hist_sub (choose : Nat → List Player → Nat) (g : GameE)
    (count cap : Nat) :
    ∀ (fuel : Nat) (group players : List Player) (newCnt : Nat) (st : St)
      (q : Player) (gm : GameE),
      gm ∈ ((drain choose g count cap fuel group players newCnt st).2.2).hist q →
      gm ∈ st.hist q ∨ gm = g
  | 0, _, _, _, _, _, _, h => Or.inl h
  | fuel + 1, group, players, newCnt, st, q, gm, h => by
    rw [drain] at h
    split at h
    · have hrec := drain_hist_sub choose g count cap fuel _ _ _ _ q gm h
      rcases hrec with hr | rfl
      · unfold histAppend at hr
        dsimp only at hr
        split at hr
        · rcases List.mem_append.1 hr with hr' | hr'
          · exact Or.inl hr'
          · exact Or.inr (List.mem_singleton.1 hr')
        · exact Or.inl hr
      · exact Or.inr rfl
    · exact Or.inl h

theorem drain_hist_untouched (choose : Nat → List Player → Nat) (g : GameE)
    (count cap : Nat) :
    ∀ (fuel : Nat) (group players : List Player) (newCnt : Nat) (st : St)
      (q : Player), q.name ∉ group.map Player.name →
      ((drain choose g count cap fuel group players newCnt st).2.2).hist q =
        st.hist q
  | 0, _, _, _, _, _, _ => rfl
  | fuel + 1, group, players, newCnt, st, q, h => by
    rw [drain]
    split
    · next hcond =>
      set p := group.getD (choose st.ctr group % group.length) (Player.mk "" "")
        with hpdef
      have hpm : p ∈ group := pick_mem group _ hcond.2.2
      have hqp : q ≠ p := by
        intro he
        exact h (he ▸ List.mem_map_of_mem _ hpm)
      have hrec := drain_hist_untouched choose g count cap fuel
        (eraseByName group p.name) (eraseByName players p.name) (newCnt + 1)
        { roster := rosterAdd st.roster p.name, hist := histAppend st.hist p g
          ctr := st.ctr + 1, log := st.log } q
        (fun hm => h
          (((eraseByName_sublist group p.name).map Player.name).subset hm))
      rw [hrec]
      exact histAppend_ne st.hist p q g hqp
    · rfl

theorem drain_cap_le (choose : Nat → List Player → Nat) (g : GameE)
    (count cap : Nat) :
    ∀ (fuel : Nat) (group players : List Player) (newCnt : Nat) (st : St),
      st.roster.length ≤ cap →
      ((drain choose g count cap fuel group players newCnt st).2.2).roster.length
        ≤ cap
  | 0, _, _, _, _, h => h
  | fuel + 1, group, players, newCnt, st, h => by
    rw [drain]
    split
    · next hcond =>
      refine drain_cap_le choose g count cap fuel _ _ _ _ ?_
      have hlt : st.roster.length < cap :=
        Nat.lt_of_le_of_ne h hcond.2.1
      exact (rosterAdd_length_le _ _).trans hlt
    · exact h

theorem drain_len_acc (choose : Nat → List Player → Nat) (g : GameE)
    (count cap : Nat) :
    ∀ (fuel : Nat) (group players : List Player) (newCnt : Nat) (st : St),
      (∀ p ∈ group, p.name ∉ st.roster) → (group.map Player.name).Nodup →
      ((drain choose g count cap fuel group players newCnt st).2.2).roster.length
          + newCnt =
        st.roster.length +
          (drain choose g count cap fuel group players newCnt st).2.1
  | 0, _, _, _, _, _, _ => rfl
  | fuel + 1, group, players, newCnt, st, hfresh, hnd => by
    rw [drain]
    split
    · next hcond =>
      dsimp only
      set p := group.getD (choose st.ctr group % group.length) (Player.mk "" "")
        with hp
      have hpm : p ∈ group := pick_mem group _ hcond.2.2
      have hfresh' : ∀ q ∈ eraseByName group p.name,
          q.name ∉ rosterAdd st.roster p.name := by
        intro q hq hmem
        rcases (mem_rosterAdd_iff _ _ _).1 hmem with hqe | hr
        · exact eraseByName_names_ne group p.name hnd q hq hqe
        · exact hfresh q ((eraseByName_sublist group _).subset hq) hr
      have hnd' : ((eraseByName group p.name).map Player.name).Nodup :=
        hnd.sublist ((eraseByName_sublist group _).map Player.name)
      have hrec := drain_len_acc choose g count cap fuel
        (eraseByName group p.name) (eraseByName players p.name) (newCnt + 1)
        { roster := rosterAdd st.roster p.name, hist := histAppend st.hist p g
          ctr := st.ctr + 1, log := st.log } hfresh' hnd'
      have hlen : (rosterAdd st.roster p.name).length = st.roster.length + 1 :=
        rosterAdd_length_of_not_mem _ _ (hfresh p hpm)
      dsimp only at hrec
      omega
    · rfl

theorem drain_roster_nodup (choose : Nat → List Player → Nat) (g : GameE)
    (count cap : Nat) :
    ∀ (fuel : Nat) (group players : List Player) (newCnt : Nat) (st : St),
      st.roster.Nodup →
      ((drain choose g count cap fuel group players newCnt st).2.2).roster.Nodup
  | 0, _, _, _, _, h => h
  | fuel + 1, group, players, newCnt, st, h => by
    rw [drain]
    split
    · exact drain_roster_nodup choose g count cap fuel _ _ _ _
        (rosterAdd_nodup _ _ h)
    · exact h

/-! ## Core structural lemmas about `drainAll` and `add_players` -/

theorem drainAll_log (choose : Nat → List Player → Nat) (g : GameE)
    (count cap : Nat) :
    ∀ (groups : List (List Player)) (players : List Player) (newCnt : Nat)
      (st : St),
      ((drainAll choose g count cap groups players newCnt st).2.2).log = st.log
  | [], _, _, _ => rfl
  | grp :: rest, players, newCnt, st => by
    rw [drainAll]
    exact (drainAll_log choose g count cap rest _ _ _).trans
      (drain_log choose g count cap grp.length grp players newCnt st)

theorem drainAll_roster_mono (choose : Nat → List Player → Nat) (g : GameE)
    (count cap : Nat) :
    ∀ (groups : List (List Player)) (players : List Player) (newCnt : Nat)
      (st : St) (n : String), n ∈ st.roster →
      n ∈ ((drainAll choose g count cap groups players newCnt st).2.2).roster
  | [], _, _, _, _, h => h
  | grp :: rest, players, newCnt, st, n, h => by
    rw [drainAll]
    exact drainAll_roster_mono choose g count cap rest _ _ _ n
      (drain_roster_mono choose g count cap grp.length grp players newCnt st n h)

theorem drainAll_roster_new (choose : Nat → List Player → Nat) (g : GameE)
    (count cap : Nat) :
    ∀ (groups : List (List Player)) (players : List Player) (newCnt : Nat)
      (st : St) (n : String),
      n ∈ ((drainAll choose g count cap groups players newCnt st).2.2).roster →
      n ∈ st.roster ∨ n ∈ (groups.flatten.map Player.name)
  | [], _, _, _, _, h => Or.inl h
  | grp :: rest, players, newCnt, st, n, h => by
    rw [drainAll] at h
    rcases drainAll_roster_new choose g count cap rest _ _ _ n h with h' | h'
    · rcases drain_roster_new choose g count cap grp.length grp players newCnt
        st n h' with h'' | h''
      · exact Or.inl h''
      · refine Or.inr ?_
        rcases List.mem_map.1 h'' with ⟨p, hp, rfl⟩
        exact List.mem_map_of_mem _ (List.mem_flatten.2 ⟨grp, List.mem_cons_self _ _, hp⟩)
    · refine Or.inr ?_
      rcases List.mem_map.1 h' with ⟨p, hp, rfl⟩
      rcases List.mem_flatten.1 hp with ⟨l, hl, hpl⟩
      exact List.mem_map_of_mem _
        (List.mem_flatten.2 ⟨l, List.mem_cons_of_mem _ hl, hpl⟩)

theorem drainAll_players_sublist (choose : Nat → List Player → Nat) (g : GameE)
    (count cap : Nat) :
    ∀ (groups : List (List Player)) (players : List Player) (newCnt : Nat)
      (st : St),
      List.Sublist (drainAll choose g count cap groups players newCnt st).1
        players
  | [], players, _, _ => List.Sublist.refl players
  | grp :: rest, players, newCnt, st => by
    rw [drainAll]
    exact (drainAll_players_sublist choose g count cap rest _ _ _).trans
      (drain_players_sublist choose g count cap grp.length grp players newCnt st)

theorem drainAll_hist_mono (choose : Nat → List Player → Nat) (g : GameE)
    (count cap : Nat) :
    ∀ (groups : List (List Player)) (players : List Player) (newCnt : Nat)
      (st : St) (q : Player) (gm : GameE), gm ∈ st.hist q →
      gm ∈ ((drainAll choose g count cap groups players newCnt st).2.2).hist q
  | [], _, _, _, _, _, h => h
  | grp :: rest, players, newCnt, st, q, gm, h => by
    rw [drainAll]
    exact drainAll_hist_mono choose g count cap rest _ _ _ q gm
      (drain_hist_mono choose g count cap grp.length grp players newCnt st q gm h)

theorem drainAll_hist_sub (choose : Nat → List Player → Nat) (g : GameE)
    (count cap : Nat) :
    ∀ (groups : List (List Player)) (players : List Player) (newCnt : Nat)
      (st : St) (q : Player) (gm : GameE),
      gm ∈ ((drainAll choose g count cap groups players newCnt st).2.2).hist q →
      gm ∈ st.hist q ∨ gm = g
  | [], _, _, _, _, _, h => Or.inl h
  | grp :: rest, players, newCnt, st, q, gm, h => by
    rw [drainAll] at h
    rcases drainAll_hist_sub choose g count cap rest _ _ _ q gm h with h' | rfl
    · exact drain_hist_sub choose g count cap grp.length grp players newCnt st
        q gm h'
    · exact Or.inr rfl

theorem drainAll_hist_untouched (choose : Nat → List Player → Nat) (g : GameE)
    (count cap : Nat) :
    ∀ (groups : List (List Player)) (players : List Player) (newCnt : Nat)
      (st : St) (q : Player), q.name ∉ (groups.flatten.map Player.name) →
      ((drainAll choose g count cap groups players newCnt st).2.2).hist q =
        st.hist q
  | [], _, _, _, _, _ => rfl
  | grp :: rest, players, newCnt, st, q, h => by
    rw [drainAll]
    have h1 : q.name ∉ grp.map Player.name := by
      intro hm
      rcases List.mem_map.1 hm with ⟨p, hp, hpn⟩
      exact h (hpn ▸ List.mem_map_of_mem _
        (List.mem_flatten.2 ⟨grp, List.mem_cons_self _ _, hp⟩))
    have h2 : q.name ∉ (rest.flatten.map Player.name) := by
      intro hm
      rcases List.mem_map.1 hm with ⟨p, hp, hpn⟩
      rcases List.mem_flatten.1 hp with ⟨l, hl, hpl⟩
      exact h (hpn ▸ List.mem_map_of_mem _
        (List.mem_flatten.2 ⟨l, List.mem_cons_of_mem _ hl, hpl⟩))
    rw [drainAll_hist_untouched choose g count cap rest _ _ _ q h2]
    exact drain_hist_untouched choose g count cap grp.length grp players newCnt
      st q h1

theorem drainAll_cap_le (choose : Nat → List Player → Nat) (g : GameE)
    (count cap : Nat) :
    ∀ (groups : List (List Player)) (players : List Player) (newCnt : Nat)
      (st : St), st.roster.length ≤ cap →
      ((drainAll choose g count cap groups players newCnt st).2.2).roster.length
        ≤ cap
  | [], _, _, _, h => h
  | grp :: rest, players, newCnt, st, h => by
    rw [drainAll]
    exact drainAll_cap_le choose g count cap rest _ _ _
      (drain_cap_le choose g count cap grp.length grp players newCnt st h)

theorem drainAll_roster_nodup (choose : Nat → List Player → Nat) (g : GameE)
    (count cap : Nat) :
    ∀ (groups : List (List Player)) (players : List Player) (newCnt : Nat)
      (st : St), st.roster.Nodup →
      ((drainAll choose g count cap groups players newCnt st).2.2).roster.Nodup
  | [], _, _, _, h => h
  | grp :: rest, players, newCnt, st, h => by
    rw [drainAll]
    exact drainAll_roster_nodup choose g count cap rest _ _ _
      (drain_roster_nodup choose g count cap grp.length grp players newCnt st h)

theorem drainAll_len_acc (choose : Nat → List Player → Nat) (g : GameE)
    (count cap : Nat) :
    ∀ (groups : List (List Player)) (players : List Player) (newCnt : Nat)
      (st : St),
      (∀ p ∈ groups.flatten, p.name ∉ st.roster) →
      ((groups.flatten.map Player.name)).Nodup →
      ((drainAll choose g count cap groups players newCnt st).2.2).roster.length
          + newCnt =
        st.roster.length +
          (drainAll choose g count cap groups players newCnt st).2.1
  | [], _, _, _, _, _ => rfl
  | grp :: rest, players, newCnt, st, hfresh, hnd => by
    rw [drainAll]
    have hjoin : ∀ p ∈ grp, p ∈ (grp :: rest).flatten := fun p hp =>
      List.mem_flatten.2 ⟨grp, List.mem_cons_self _ _, hp⟩
    have hjoin2 : ∀ p ∈ rest.flatten, p ∈ (grp :: rest).flatten := by
      intro p hp
      rcases List.mem_flatten.1 hp with ⟨l, hl, hpl⟩
      exact List.mem_flatten.2 ⟨l, List.mem_cons_of_mem _ hl, hpl⟩
    have hndflat : ((grp :: rest).flatten.map Player.name).Nodup := hnd
    have hflat_eq : (grp :: rest).flatten = grp ++ rest.flatten := by
      simp [List.flatten_cons]
    rw [hflat_eq, List.map_append, List.nodup_append] at hndflat
    have h1 := drain_len_acc choose g count cap grp.length grp players newCnt st
      (fun p hp => hfresh p (hjoin p hp)) hndflat.1
    set r := drain choose g count cap grp.length grp players newCnt st with hr
    have hfresh2 : ∀ p ∈ rest.flatten, p.name ∉ r.2.2.roster := by
      intro p hp hmem
      rcases drain_roster_new choose g count cap grp.length grp players newCnt
        st p.name hmem with h' | h'
      · exact hfresh p (hjoin2 p hp) h'
      · exact hndflat.2.2 h' (List.mem_map_of_mem _ hp)
    have h2 := drainAll_len_acc choose g count cap rest r.1 r.2.1 r.2.2
      hfresh2 hndflat.2.1
    omega

/-- Members of the groups built by `add_players` are nominated players. -/
theorem add_players_groups_sub (cap : Nat) (h : Hist) (nominated : List Player)
    (keys : List Nat) (p : Player)
    (hp : p ∈ (keys.map (fun k =>
      nominated.filter (fun q => groupCnt cap h q == k))).flatten) :
    p ∈ nominated := by
  rcases List.mem_flatten.1 hp with ⟨l, hl, hpl⟩
  rcases List.mem_map.1 hl with ⟨k, _, rfl⟩
  exact (List.filter_sublist nominated).subset hpl

/-- With nominated names distinct and keys distinct, the flattened groups of
`add_players` have distinct names. -/
theorem add_players_groups_nodup (cap : Nat) (h : Hist) (nominated : List Player)
    (hnom : (nominated.map Player.name).Nodup) :
    ∀ (keys : List Nat), keys.Nodup →
      (((keys.map (fun k =>
        nominated.filter (fun q => groupCnt cap h q == k))).flatten.map
          Player.name)).Nodup
  | [], _ => List.nodup_nil
  | k :: ks, hknd => by
    rw [List.map_cons, List.flatten_cons, List.map_append, List.nodup_append]
    refine ⟨hnom.sublist ((List.filter_sublist nominated).map Player.name),
      add_players_groups_nodup cap h nominated hnom ks (List.nodup_cons.1 hknd).2,
      ?_⟩
    intro n hn1 hn2
    rcases List.mem_map.1 hn1 with ⟨p1, hp1, rfl⟩
    rcases List.mem_map.1 hn2 with ⟨p2, hp2, hp2n⟩
    rcases List.mem_flatten.1 hp2 with ⟨l, hl, hp2l⟩
    rcases List.mem_map.1 hl with ⟨k', hk', rfl⟩
    have hp1' : p1 ∈ nominated := (List.filter_sublist nominated).subset hp1
    have hp2' : p2 ∈ nominated := (List.filter_sublist nominated).subset hp2l
    have : p2 = p1 := List.inj_on_of_nodup_map hnom hp2' hp1' hp2n
    subst this
    have hk1 : (groupCnt cap h p2 == k) = true := (List.mem_filter.1 hp1).2
    have hk2 : (groupCnt cap h p2 == k') = true := (List.mem_filter.1 hp2l).2
    have : k = k' := by
      have e1 : groupCnt cap h p2 = k := by simpa using hk1
      have e2 : groupCnt cap h p2 = k' := by simpa using hk2
      omega
    exact (List.nodup_cons.1 hknd).1 (this ▸ hk')

/-- `sortNat` is a permutation. -/
theorem insertSorted_perm (n : Nat) :
    ∀ (l : List Nat), List.Perm (insertSorted n l) (n :: l)
  | [] => List.Perm.refl [n]
  | m :: ms => by
    unfold insertSorted
    split
    · exact List.Perm.refl _
    · exact ((insertSorted_perm n ms).cons m).trans (List.Perm.swap n m ms)

theorem sortNat_perm : ∀ (l : List Nat), List.Perm (sortNat l) l
  | [] => List.Perm.refl []
  | n :: ns => by
    unfold sortNat
    exact ((insertSorted_perm n _).trans ((sortNat_perm ns).cons n))

theorem sortNat_nodup (l : List Nat) (h : l.Nodup) : (sortNat l).Nodup :=
  (sortNat_perm l).nodup_iff.2 h

theorem add_players_log (choose : Nat → List Player → Nat) (g : GameE)
    (count cap : Nat) (nominated players : List Player) (newCnt : Nat) (st : St) :
    ((add_players choose g count cap nominated players newCnt st).2.2).log =
      st.log := by
  unfold add_players
  exact drainAll_log choose g count cap _ players newCnt st

theorem add_players_roster_mono (choose : Nat → List Player → Nat) (g : GameE)
    (count cap : Nat) (nominated players : List Player) (newCnt : Nat) (st : St)
    (n : String) (h : n ∈ st.roster) :
    n ∈ ((add_players choose g count cap nominated players newCnt st).2.2).roster := by
  unfold add_players
  exact drainAll_roster_mono choose g count cap _ players newCnt st n h

theorem add_players_roster_new (choose : Nat → List Player → Nat) (g : GameE)
    (count cap : Nat) (nominated players : List Player) (newCnt : Nat) (st : St)
    (n : String)
    (h : n ∈ ((add_players choose g count cap nominated players newCnt st).2.2).roster) :
    n ∈ st.roster ∨ n ∈ nominated.map Player.name := by
  unfold add_players at h
  rcases drainAll_roster_new choose g count cap _ players newCnt st n h with h' | h'
  · exact Or.inl h'
  · rcases List.mem_map.1 h' with ⟨p, hp, rfl⟩
    exact Or.inr (List.mem_map_of_mem _ (add_players_groups_sub cap st.hist _ _ p hp))

theorem add_players_players_sublist (choose : Nat → List Player → Nat) (g : GameE)
    (count cap : Nat) (nominated players : List Player) (newCnt : Nat) (st : St) :
    List.Sublist (add_players choose g count cap nominated players newCnt st).1
      players := by
  unfold add_players
  exact drainAll_players_sublist choose g count cap _ players newCnt st

theorem add_players_hist_mono (choose : Nat → List Player → Nat) (g : GameE)
    (count cap : Nat) (nominated players : List Player) (newCnt : Nat) (st : St)
    (q : Player) (gm : GameE) (h : gm ∈ st.hist q) :
    gm ∈ ((add_players choose g count cap nominated players newCnt st).2.2).hist q := by
  unfold add_players
  exact drainAll_hist_mono choose g count cap _ players newCnt st q gm h

theorem add_players_hist_sub (choose : Nat → List Player → Nat) (g : GameE)
    (count cap : Nat) (nominated players : List Player) (newCnt : Nat) (st : St)
    (q : Player) (gm : GameE)
    (h : gm ∈ ((add_players choose g count cap nominated players newCnt st).2.2).hist q) :
    gm ∈ st.hist q ∨ gm = g := by
  unfold add_players at h
  exact drainAll_hist_sub choose g count cap _ players newCnt st q gm h

theorem add_players_hist_untouched (choose : Nat → List Player → Nat) (g : GameE)
    (count cap : Nat) (nominated players : List Player) (newCnt : Nat) (st : St)
    (q : Player) (h : q.name ∉ nominated.map Player.name) :
    ((add_players choose g count cap nominated players newCnt st).2.2).hist q =
      st.hist q := by
  unfold add_players
  refine drainAll_hist_untouched choose g count cap _ players newCnt st q ?_
  intro hm
  rcases List.mem_map.1 hm with ⟨p, hp, hpn⟩
  exact h (hpn ▸ List.mem_map_of_mem _ (add_players_groups_sub cap st.hist _ _ p hp))

theorem add_players_cap_le (choose : Nat → List Player → Nat) (g : GameE)
    (count cap : Nat) (nominated players : List Player) (newCnt : Nat) (st : St)
    (h : st.roster.length ≤ cap) :
    ((add_players choose g count cap nominated players newCnt st).2.2).roster.length
      ≤ cap := by
  unfold add_players
  exact drainAll_cap_le choose g count cap _ players newCnt st h

theorem add_players_roster_nodup (choose : Nat → List Player → Nat) (g : GameE)
    (count cap : Nat) (nominated players : List Player) (newCnt : Nat) (st : St)
    (h : st.roster.Nodup) :
    ((add_players choose g count cap nominated players newCnt st).2.2).roster.Nodup := by
  unfold add_players
  exact drainAll_roster_nodup choose g count cap _ players newCnt st h

theorem add_players_len_acc (choose : Nat → List Player → Nat) (g : GameE)
    (count cap : Nat) (nominated players : List Player) (newCnt : Nat) (st : St)
    (hfresh : ∀ p ∈ nominated, p.name ∉ st.roster)
    (hnd : (nominated.map Player.name).Nodup) :
    ((add_players choose g count cap nominated players newCnt st).2.2).roster.length
        + newCnt =
      st.roster.length +
        (add_players choose g count cap nominated players newCnt st).2.1 := by
  unfold add_players
  refine drainAll_len_acc choose g count cap _ players newCnt st ?_ ?_
  · intro p hp
    exact hfresh p (add_players_groups_sub cap st.hist _ _ p hp)
  · exact add_players_groups_nodup cap st.hist nominated hnd _
      (sortNat_nodup _ (List.nodup_dedup _))

/-! ## The cascade winner is a least-played candidate not on the roster -/

theorem chosen_sublist_cands (h : Hist) (g : GameE) (rl : Nat)
    (cands : List Player) :
    List.Sublist (chosenSubset h g (narrowTK rl cands)) cands :=
  (chosenSubset_sublist h g _).trans (narrowTK_sublist rl cands)

theorem chosen_sublist_players (h : Hist) (g : GameE) (r : List String) (rl : Nat)
    (players : List Player) :
    List.Sublist (chosenSubset h g (narrowTK rl (candidatesOf h r players)))
      players :=
  (chosen_sublist_cands h g rl _).trans (candidatesOf_sublist h r players)

theorem chosen_not_rostered (h : Hist) (g : GameE) (r : List String) (rl : Nat)
    (players : List Player) (p : Player)
    (hp : p ∈ chosenSubset h g (narrowTK rl (candidatesOf h r players))) :
    p.name ∉ r :=
  candidatesOf_not_rostered h r players p ((chosen_sublist_cands h g rl _).subset hp)

/-! ## Core structural lemmas about `quotaLoop` -/

theorem quotaLoop_log (choose : Nat → List Player → Nat) (g : GameE)
    (count cap : Nat) :
    ∀ (fuel : Nat) (players : List Player) (newCnt : Nat) (st : St)
      (plF : List Player) (nF : Nat) (stF : St),
      quotaLoop choose g count cap fuel players newCnt st = some (plF, nF, stF) →
      stF.log = st.log
  | 0, players, newCnt, st, plF, nF, stF, h => by simp [quotaLoop] at h
  | fuel + 1, players, newCnt, st, plF, nF, stF, h => by
    rw [quotaLoop] at h
    split at h
    · dsimp only at h
      exact (quotaLoop_log choose g count cap fuel _ _ _ plF nF stF h).trans
        (add_players_log choose g count cap _ players newCnt st)
    · simp only [Option.some.injEq, Prod.mk.injEq] at h
      obtain ⟨-, -, rfl⟩ := h
      rfl

theorem quotaLoop_roster_mono (choose : Nat → List Player → Nat) (g : GameE)
    (count cap : Nat) :
    ∀ (fuel : Nat) (players : List Player) (newCnt : Nat) (st : St)
      (plF : List Player) (nF : Nat) (stF : St),
      quotaLoop choose g count cap fuel players newCnt st = some (plF, nF, stF) →
      ∀ n ∈ st.roster, n ∈ stF.roster
  | 0, players, newCnt, st, plF, nF, stF, h => by simp [quotaLoop] at h
  | fuel + 1, players, newCnt, st, plF, nF, stF, h => by
    rw [quotaLoop] at h
    split at h
    · dsimp only at h
      intro n hn
      exact quotaLoop_roster_mono choose g count cap fuel _ _ _ plF nF stF h n
        (add_players_roster_mono choose g count cap _ players newCnt st n hn)
    · simp only [Option.some.injEq, Prod.mk.injEq] at h
      obtain ⟨-, -, rfl⟩ := h
      exact fun n hn => hn

theorem quotaLoop_roster_new (choose : Nat → List Player → Nat) (g : GameE)
    (count cap : Nat) :
    ∀ (fuel : Nat) (players : List Player) (newCnt : Nat) (st : St)
      (plF : List Player) (nF : Nat) (stF : St),
      quotaLoop choose g count cap fuel players newCnt st = some (plF, nF, stF) →
      ∀ n ∈ stF.roster, n ∈ st.roster ∨ n ∈ players.map Player.name
  | 0, players, newCnt, st, plF, nF, stF, h => by simp [quotaLoop] at h
  | fuel + 1, players, newCnt, st, plF, nF, stF, h => by
    rw [quotaLoop] at h
    split at h
    · dsimp only at h
      intro n hn
      rcases quotaLoop_roster_new choose g count cap fuel _ _ _ plF nF stF h n hn
        with h' | h'
      · rcases add_players_roster_new choose g count cap _ players newCnt st n h'
          with h'' | h''
        · exact Or.inl h''
        · rcases List.mem_map.1 h'' with ⟨p, hp, rfl⟩
          exact Or.inr (List.mem_map_of_mem _
            ((chosen_sublist_players st.hist g st.roster st.roster.length
              players).subset hp))
      · rcases List.mem_map.1 h' with ⟨p, hp, rfl⟩
        exact Or.inr (List.mem_map_of_mem _
          ((add_players_players_sublist choose g count cap _ players newCnt
            st).subset hp))
    · simp only [Option.some.injEq, Prod.mk.injEq] at h
      obtain ⟨-, -, rfl⟩ := h
      exact fun n hn => Or.inl hn

theorem quotaLoop_players_sublist (choose : Nat → List Player → Nat) (g : GameE)
    (count cap : Nat) :
    ∀ (fuel : Nat) (players : List Player) (newCnt : Nat) (st : St)
      (plF : List Player) (nF : Nat) (stF : St),
      quotaLoop choose g count cap fuel players newCnt st = some (plF, nF, stF) →
      List.Sublist plF players
  | 0, players, newCnt, st, plF, nF, stF, h => by simp [quotaLoop] at h
  | fuel + 1, players, newCnt, st, plF, nF, stF, h => by
    rw [quotaLoop] at h
    split at h
    · dsimp only at h
      exact (quotaLoop_players_sublist choose g count cap fuel _ _ _ plF nF stF
        h).trans (add_players_players_sublist choose g count cap _ players
          newCnt st)
    · simp only [Option.some.injEq, Prod.mk.injEq] at h
      obtain ⟨rfl, -, -⟩ := h
      exact List.Sublist.refl _

theorem quotaLoop_hist_mono (choose : Nat → List Player → Nat) (g : GameE)
    (count cap : Nat) :
    ∀ (fuel : Nat) (players : List Player) (newCnt : Nat) (st : St)
      (plF : List Player) (nF : Nat) (stF : St),
      quotaLoop choose g count cap fuel players newCnt st = some (plF, nF, stF) →
      ∀ (q : Player) (gm : GameE), gm ∈ st.hist q → gm ∈ stF.hist q
  | 0, players, newCnt, st, plF, nF, stF, h => by simp [quotaLoop] at h
  | fuel + 1, players, newCnt, st, plF, nF, stF, h => by
    rw [quotaLoop] at h
    split at h
    · dsimp only at h
      intro q gm hgm
      exact quotaLoop_hist_mono choose g count cap fuel _ _ _ plF nF stF h q gm
        (add_players_hist_mono choose g count cap _ players newCnt st q gm hgm)
    · simp only [Option.some.injEq, Prod.mk.injEq] at h
      obtain ⟨-, -, rfl⟩ := h
      exact fun q gm hgm => hgm

theorem quotaLoop_hist_sub (choose : Nat → List Player → Nat) (g : GameE)
    (count cap : Nat) :
    ∀ (fuel : Nat) (players : List Player) (newCnt : Nat) (st : St)
      (plF : List Player) (nF : Nat) (stF : St),
      quotaLoop choose g count cap fuel players newCnt st = some (plF, nF, stF) →
      ∀ (q : Player) (gm : GameE), gm ∈ stF.hist q → gm ∈ st.hist q ∨ gm = g
  | 0, players, newCnt, st, plF, nF, stF, h => by simp [quotaLoop] at h
  | fuel + 1, players, newCnt, st, plF, nF, stF, h => by
    rw [quotaLoop] at h
    split at h
    · dsimp only at h
      intro q gm hgm
      rcases quotaLoop_hist_sub choose g count cap fuel _ _ _ plF nF stF h q gm
        hgm with h' | rfl
      · exact add_players_hist_sub choose g count cap _ players newCnt st q gm h'
      · exact Or.inr rfl
    · simp only [Option.some.injEq, Prod.mk.injEq] at h
      obtain ⟨-, -, rfl⟩ := h
      exact fun q gm hgm => Or.inl hgm

theorem quotaLoop_hist_untouched (choose : Nat → List Player → Nat) (g : GameE)
    (count cap : Nat) :
    ∀ (fuel : Nat) (players : List Player) (newCnt : Nat) (st : St)
      (plF : List Player) (nF : Nat) (stF : St),
      quotaLoop choose g count cap fuel players newCnt st = some (plF, nF, stF) →
      ∀ (q : Player), q.name ∉ players.map Player.name → stF.hist q = st.hist q
  | 0, players, newCnt, st, plF, nF, stF, h => by simp [quotaLoop] at h
  | fuel + 1, players, newCnt, st, plF, nF, stF, h => by
    rw [quotaLoop] at h
    split at h
    · dsimp only at h
      intro q hq
      have hq2 : q.name ∉
          ((add_players choose g count cap
            (chosenSubset st.hist g
              (narrowTK st.roster.length (candidatesOf st.hist st.roster players)))
            players newCnt st).1.map Player.name) := by
        intro hm
        exact hq (((add_players_players_sublist choose g count cap _ players
          newCnt st).map Player.name).subset hm)
      rw [quotaLoop_hist_untouched choose g count cap fuel _ _ _ plF nF stF h q hq2]
      refine add_players_hist_untouched choose g count cap _ players newCnt st q ?_
      intro hm
      exact hq (((chosen_sublist_players st.hist g st.roster st.roster.length
        players).map Player.name).subset hm)
    · simp only [Option.some.injEq, Prod.mk.injEq] at h
      obtain ⟨-, -, rfl⟩ := h
      exact fun q _ => rfl

theorem quotaLoop_cap_le (choose : Nat → List Player → Nat) (g : GameE)
    (count cap : Nat) :
    ∀ (fuel : Nat) (players : List Player) (newCnt : Nat) (st : St)
      (plF : List Player) (nF : Nat) (stF : St),
      quotaLoop choose g count cap fuel players newCnt st = some (plF, nF, stF) →
      st.roster.length ≤ cap → stF.roster.length ≤ cap
  | 0, players, newCnt, st, plF, nF, stF, h => by simp [quotaLoop] at h
  | fuel + 1, players, newCnt, st, plF, nF, stF, h => by
    rw [quotaLoop] at h
    split at h
    · dsimp only at h
      intro hle
      exact quotaLoop_cap_le choose g count cap fuel _ _ _ plF nF stF h
        (add_players_cap_le choose g count cap _ players newCnt st hle)
    · simp only [Option.some.injEq, Prod.mk.injEq] at h
      obtain ⟨-, -, rfl⟩ := h
      exact fun hle => hle

theorem quotaLoop_roster_nodup (choose : Nat → List Player → Nat) (g : GameE)
    (count cap : Nat) :
    ∀ (fuel : Nat) (players : List Player) (newCnt : Nat) (st : St)
      (plF : List Player) (nF : Nat) (stF : St),
      quotaLoop choose g count cap fuel players newCnt st = some (plF, nF, stF) →
      st.roster.Nodup → stF.roster.Nodup
  | 0, players, newCnt, st, plF, nF, stF, h => by simp [quotaLoop] at h
  | fuel + 1, players, newCnt, st, plF, nF, stF, h => by
    rw [quotaLoop] at h
    split at h
    · dsimp only at h
      intro hnd
      exact quotaLoop_roster_nodup choose g count cap fuel _ _ _ plF nF stF h
        (add_players_roster_nodup choose g count cap _ players newCnt st hnd)
    · simp only [Option.some.injEq, Prod.mk.injEq] at h
      obtain ⟨-, -, rfl⟩ := h
      exact fun hnd => hnd

theorem quotaLoop_len_acc (choose : Nat → List Player → Nat) (g : GameE)
    (count cap : Nat) :
    ∀ (fuel : Nat) (players : List Player) (newCnt : Nat) (st : St)
      (plF : List Player) (nF : Nat) (stF : St),
      quotaLoop choose g count cap fuel players newCnt st = some (plF, nF, stF) →
      (players.map Player.name).Nodup →
      stF.roster.length + newCnt = st.roster.length + nF
  | 0, players, newCnt, st, plF, nF, stF, h => by simp [quotaLoop] at h
  | fuel + 1, players, newCnt, st, plF, nF, stF, h => by
    rw [quotaLoop] at h
    split at h
    · dsimp only at h
      intro hnd
      have hchs : List.Sublist
          (chosenSubset st.hist g
            (narrowTK st.roster.length (candidatesOf st.hist st.roster players)))
          players :=
        chosen_sublist_players st.hist g st.roster st.roster.length players
      have h1 := add_players_len_acc choose g count cap
        (chosenSubset st.hist g
          (narrowTK st.roster.length (candidatesOf st.hist st.roster players)))
        players newCnt st
        (fun p hp => chosen_not_rostered st.hist g st.roster st.roster.length
          players p hp)
        (hnd.sublist (hchs.map Player.name))
      have h2 := quotaLoop_len_acc choose g count cap fuel _ _ _ plF nF stF h
        (hnd.sublist ((add_players_players_sublist choose g count cap _ players
          newCnt st).map Player.name))
      omega
    · simp only [Option.some.injEq, Prod.mk.injEq] at h
      obtain ⟨-, rfl, rfl⟩ := h
      intro _
      omega

theorem quotaLoop_exit (choose : Nat → List Player → Nat) (g : GameE)
    (count cap : Nat) :
    ∀ (fuel : Nat) (players : List Player) (newCnt : Nat) (st : St)
      (plF : List Player) (nF : Nat) (stF : St),
      quotaLoop choose g count cap fuel players newCnt st = some (plF, nF, stF) →
      nF = count ∨ plF = [] ∨ stF.roster.length = cap
  | 0, players, newCnt, st, plF, nF, stF, h => by simp [quotaLoop] at h
  | fuel + 1, players, newCnt, st, plF, nF, stF, h => by
    rw [quotaLoop] at h
    split at h
    · dsimp only at h
      exact quotaLoop_exit choose g count cap fuel _ _ _ plF nF stF h
    · next hcond =>
      simp only [Option.some.injEq, Prod.mk.injEq] at h
      obtain ⟨rfl, rfl, rfl⟩ := h
      push_neg at hcond
      by_cases h1 : newCnt = count
      · exact Or.inl h1
      · by_cases h2 : players = []
        · exact Or.inr (Or.inl h2)
        · exact Or.inr (Or.inr (hcond h1 h2))

/-! ## Roster length monotonicity -/

theorem rosterAdd_length_ge (r : List String) (n : String) :
    r.length ≤ (rosterAdd r n).length := by
  unfold rosterAdd
  split
  · exact Nat.le_refl _
  · exact Nat.le_succ _

theorem drain_len_mono (choose : Nat → List Player → Nat) (g : GameE)
    (count cap : Nat) :
    ∀ (fuel : Nat) (group players : List Player) (newCnt : Nat) (st : St),
      st.roster.length ≤
        ((drain choose g count cap fuel group players newCnt st).2.2).roster.length
  | 0, _, _, _, _ => Nat.le_refl _
  | fuel + 1, group, players, newCnt, st => by
    rw [drain]
    split
    · dsimp only
      set p := group.getD (choose st.ctr group % group.length) (Player.mk "" "")
        with hp
      have h2 := drain_len_mono choose g count cap fuel (eraseByName group p.name)
        (eraseByName players p.name) (newCnt + 1)
        { roster := rosterAdd st.roster p.name, hist := histAppend st.hist p g
          ctr := st.ctr + 1, log := st.log }
      exact Nat.le_trans (rosterAdd_length_ge st.roster p.name) h2
    · exact Nat.le_refl _

theorem drainAll_len_mono (choose : Nat → List Player → Nat) (g : GameE)
    (count cap : Nat) :
    ∀ (groups : List (List Player)) (players : List Player) (newCnt : Nat)
      (st : St),
      st.roster.length ≤
        ((drainAll choose g count cap groups players newCnt st).2.2).roster.length
  | [], _, _, _ => Nat.le_refl _
  | grp :: rest, players, newCnt, st => by
    rw [drainAll]
    exact (drain_len_mono choose g count cap grp.length grp players newCnt
      st).trans (drainAll_len_mono choose g count cap rest _ _ _)

theorem add_players_len_mono (choose : Nat → List Player → Nat) (g : GameE)
    (count cap : Nat) (nominated players : List Player) (newCnt : Nat) (st : St) :
    st.roster.length ≤
      ((add_players choose g count cap nominated players newCnt st).2.2).roster.length := by
  unfold add_players
  exact drainAll_len_mono choose g count cap _ players newCnt st

theorem quotaLoop_len_mono (choose : Nat → List Player → Nat) (g : GameE)
    (count cap : Nat) :
    ∀ (fuel : Nat) (players : List Player) (newCnt : Nat) (st : St)
      (plF : List Player) (nF : Nat) (stF : St),
      quotaLoop choose g count cap fuel players newCnt st = some (plF, nF, stF) →
      st.roster.length ≤ stF.roster.length
  | 0, players, newCnt, st, plF, nF, stF, h => by simp [quotaLoop] at h
  | fuel + 1, players, newCnt, st, plF, nF, stF, h => by
    rw [quotaLoop] at h
    split at h
    · dsimp only at h
      exact (add_players_len_mono choose g count cap _ players newCnt st).trans
        (quotaLoop_len_mono choose g count cap fuel _ _ _ plF nF stF h)
    · simp only [Option.some.injEq, Prod.mk.injEq] at h
      obtain ⟨-, -, rfl⟩ := h
      exact Nat.le_refl _

/-! ## Core structural lemmas about `setupQuotas` -/

theorem avail_names_nodup (members : List Player) (unavail : String → List String)
    (g : GameE) :
    (((dedupByName members).filter
      (fun p => !((unavail p.name).contains g.key))).map Player.name).Nodup :=
  (dedupByName_names_nodup members).sublist
    ((List.filter_sublist (dedupByName members)).map Player.name)

theorem setupQuotas_roster_mono (choose : Nat → List Player → Nat) (fuel : Nat)
    (pools : List (String × List Player)) (unavail : String → List String)
    (g : GameE) (cap : Nat) :
    ∀ (pcs : List (String × Nat)) (st : St) (stF : St),
      setupQuotas choose fuel pools unavail g cap pcs st = some (.ok stF) →
      ∀ n ∈ st.roster, n ∈ stF.roster
  | [], st, stF, h => by
    simp only [setupQuotas, Option.some.injEq, Except.ok.injEq] at h
    subst h
    exact fun n hn => hn
  | (poolName, count) :: rest, st, stF, h => by
    rw [setupQuotas] at h
    split at h
    · simp at h
    · dsimp only at h
      split at h
      · simp at h
      · next plF nF stMid heq =>
        intro n hn
        refine setupQuotas_roster_mono choose fuel pools unavail g cap rest _
          stF h n ?_
        exact quotaLoop_roster_mono choose g count cap fuel _ _ _ plF nF stMid
          heq n hn

theorem setupQuotas_cap_le (choose : Nat → List Player → Nat) (fuel : Nat)
    (pools : List (String × List Player)) (unavail : String → List String)
    (g : GameE) (cap : Nat) :
    ∀ (pcs : List (String × Nat)) (st : St) (stF : St),
      setupQuotas choose fuel pools unavail g cap pcs st = some (.ok stF) →
      st.roster.length ≤ cap → stF.roster.length ≤ cap
  | [], st, stF, h => by
    simp only [setupQuotas, Option.some.injEq, Except.ok.injEq] at h
    subst h
    exact fun hle => hle
  | (poolName, count) :: rest, st, stF, h => by
    rw [setupQuotas] at h
    split at h
    · simp at h
    · dsimp only at h
      split at h
      · simp at h
      · next plF nF stMid heq =>
        intro hle
        exact setupQuotas_cap_le choose fuel pools unavail g cap rest _ stF h
          (quotaLoop_cap_le choose g count cap fuel _ _ _ plF nF stMid heq hle)

theorem setupQuotas_len_mono (choose : Nat → List Player → Nat) (fuel : Nat)
    (pools : List (String × List Player)) (unavail : String → List String)
    (g : GameE) (cap : Nat) :
    ∀ (pcs : List (String × Nat)) (st : St) (stF : St),
      setupQuotas choose fuel pools unavail g cap pcs st = some (.ok stF) →
      st.roster.length ≤ stF.roster.length
  | [], st, stF, h => by
    simp only [setupQuotas, Option.some.injEq, Except.ok.injEq] at h
    subst h
    exact Nat.le_refl _
  | (poolName, count) :: rest, st, stF, h => by
    rw [setupQuotas] at h
    split at h
    · simp at h
    · dsimp only at h
      split at h
      · simp at h
      · next plF nF stMid heq =>
        have h2 := setupQuotas_len_mono choose fuel pools unavail g cap rest _
          stF h
        exact (quotaLoop_len_mono choose g count cap fuel _ _ _ plF nF stMid
          heq).trans h2

theorem setupQuotas_hist_mono (choose : Nat → List Player → Nat) (fuel : Nat)
    (pools : List (String × List Player)) (unavail : String → List String)
    (g : GameE) (cap : Nat) :
    ∀ (pcs : List (String × Nat)) (st : St) (stF : St),
      setupQuotas choose fuel pools unavail g cap pcs st = some (.ok stF) →
      ∀ (q : Player) (gm : GameE), gm ∈ st.hist q → gm ∈ stF.hist q
  | [], st, stF, h => by
    simp only [setupQuotas, Option.some.injEq, Except.ok.injEq] at h
    subst h
    exact fun q gm hgm => hgm
  | (poolName, count) :: rest, st, stF, h => by
    rw [setupQuotas] at h
    split at h
    · simp at h
    · dsimp only at h
      split at h
      · simp at h
      · next plF nF stMid heq =>
        intro q gm hgm
        exact setupQuotas_hist_mono choose fuel pools unavail g cap rest _ stF h
          q gm (quotaLoop_hist_mono choose g count cap fuel _ _ _ plF nF stMid
            heq q gm hgm)

theorem setupQuotas_hist_sub (choose : Nat → List Player → Nat) (fuel : Nat)
    (pools : List (String × List Player)) (unavail : String → List String)
    (g : GameE) (cap : Nat) :
    ∀ (pcs : List (String × Nat)) (st : St) (stF : St),
      setupQuotas choose fuel pools unavail g cap pcs st = some (.ok stF) →
      ∀ (q : Player) (gm : GameE), gm ∈ stF.hist q → gm ∈ st.hist q ∨ gm = g
  | [], st, stF, h => by
    simp only [setupQuotas, Option.some.injEq, Except.ok.injEq] at h
    subst h
    exact fun q gm hgm => Or.inl hgm
  | (poolName, count) :: rest, st, stF, h => by
    rw [setupQuotas] at h
    split at h
    · simp at h
    · dsimp only at h
      split at h
      · simp at h
      · next plF nF stMid heq =>
        intro q gm hgm
        rcases setupQuotas_hist_sub choose fuel pools unavail g cap rest _ stF h
          q gm hgm with h' | rfl
        · exact quotaLoop_hist_sub choose g count cap fuel _ _ _ plF nF stMid
            heq q gm h'
        · exact Or.inr rfl

theorem setupQuotas_roster_nodup (choose : Nat → List Player → Nat) (fuel : Nat)
    (pools : List (String × List Player)) (unavail : String → List String)
    (g : GameE) (cap : Nat) :
    ∀ (pcs : List (String × Nat)) (st : St) (stF : St),
      setupQuotas choose fuel pools unavail g cap pcs st = some (.ok stF) →
      st.roster.Nodup → stF.roster.Nodup
  | [], st, stF, h => by
    simp only [setupQuotas, Option.some.injEq, Except.ok.injEq] at h
    subst h
    exact fun hnd => hnd
  | (poolName, count) :: rest, st, stF, h => by
    rw [setupQuotas] at h
    split at h
    · simp at h
    · dsimp only at h
      split at h
      · simp at h
      · next plF nF stMid heq =>
        intro hnd
        exact setupQuotas_roster_nodup choose fuel pools unavail g cap rest _
          stF h (quotaLoop_roster_nodup choose g count cap fuel _ _ _ plF nF
            stMid heq hnd)

theorem setupQuotas_log_mono (choose : Nat → List Player → Nat) (fuel : Nat)
    (pools : List (String × List Player)) (unavail : String → List String)
    (g : GameE) (cap : Nat) :
    ∀ (pcs : List (String × Nat)) (st : St) (stF : St),
      setupQuotas choose fuel pools unavail g cap pcs st = some (.ok stF) →
      ∀ e ∈ st.log, e ∈ stF.log
  | [], st, stF, h => by
    simp only [setupQuotas, Option.some.injEq, Except.ok.injEq] at h
    subst h
    exact fun e he => he
  | (poolName, count) :: rest, st, stF, h => by
    rw [setupQuotas] at h
    split at h
    · simp at h
    · dsimp only at h
      split at h
      · simp at h
      · next plF nF stMid heq =>
        intro e he
        refine setupQuotas_log_mono choose fuel pools unavail g cap rest _ stF
          h e ?_
        have hlog : stMid.log = st.log :=
          quotaLoop_log choose g count cap fuel _ _ _ plF nF stMid heq
        exact List.mem_append_left _ (hlog ▸ he)

theorem setupQuotas_log_new (choose : Nat → List Player → Nat) (fuel : Nat)
    (pools : List (String × List Player)) (unavail : String → List String)
    (g : GameE) (cap : Nat) :
    ∀ (pcs : List (String × Nat)) (st : St) (stF : St),
      setupQuotas choose fuel pools unavail g cap pcs st = some (.ok stF) →
      ∀ e ∈ stF.log, e ∈ st.log ∨
        (e.newCnt = e.quota ∨ e.exhausted = true ∨ e.rosterLen = cap)
  | [], st, stF, h => by
    simp only [setupQuotas, Option.some.injEq, Except.ok.injEq] at h
    subst h
    exact fun e he => Or.inl he
  | (poolName, count) :: rest, st, stF, h => by
    rw [setupQuotas] at h
    split at h
    · simp at h
    · dsimp only at h
      split at h
      · simp at h
      · next plF nF stMid heq =>
        intro e he
        rcases setupQuotas_log_new choose fuel pools unavail g cap rest _ stF
          h e he with h' | h'
        · dsimp only at h'
          rcases List.mem_append.1 h' with h'' | h''
          · have hlog : stMid.log = st.log :=
              quotaLoop_log choose g count cap fuel _ _ _ plF nF stMid heq
            exact Or.inl (hlog ▸ h'')
          · rcases List.mem_singleton.1 h'' with rfl
            refine Or.inr ?_
            rcases quotaLoop_exit choose g count cap fuel _ _ _ plF nF stMid heq
              with hx | hx | hx
            · exact Or.inl hx
            · exact Or.inr (Or.inl (by simp [hx]))
            · exact Or.inr (Or.inr hx)
        · exact Or.inr h'

/-- If no quota of this game under-fills strictly below capacity, the roster
either reaches capacity or grows by exactly the sum of the quotas. -/
theorem setupQuotas_fill (choose : Nat → List Player → Nat) (fuel : Nat)
    (pools : List (String × List Player)) (unavail : String → List String)
    (g : GameE) (cap : Nat) :
    ∀ (pcs : List (String × Nat)) (st : St) (stF : St),
      setupQuotas choose fuel pools unavail g cap pcs st = some (.ok stF) →
      st.roster.length ≤ cap →
      stF.roster.length = cap ∨
        (∃ e ∈ stF.log, e.newCnt ≠ e.quota ∧ e.rosterLen ≠ cap) ∨
        stF.roster.length = st.roster.length + (pcs.map Prod.snd).sum
  | [], st, stF, h => by
    simp only [setupQuotas, Option.some.injEq, Except.ok.injEq] at h
    subst h
    intro _
    exact Or.inr (Or.inr (by simp))
  | (poolName, count) :: rest, st, stF, h => by
    rw [setupQuotas] at h
    split at h
    · simp at h
    · dsimp only at h
      split at h
      · simp at h
      · next plF nF stMid heq =>
        intro hle
        have hmidle : stMid.roster.length ≤ cap :=
          quotaLoop_cap_le choose g count cap fuel _ _ _ plF nF stMid heq hle
        by_cases hnF : nF = count
        · have hacc := quotaLoop_len_acc choose g count cap fuel _ 0 st plF nF
            stMid heq (avail_names_nodup _ unavail g)
          rcases setupQuotas_fill choose fuel pools unavail g cap rest _ stF h
            hmidle with h' | h' | h'
          · exact Or.inl h'
          · exact Or.inr (Or.inl h')
          · refine Or.inr (Or.inr ?_)
            dsimp only at h'
            rw [h', List.map_cons, List.sum_cons]
            omega
        · by_cases hcap : stMid.roster.length = cap
          · refine Or.inl ?_
            have hmono := setupQuotas_len_mono choose fuel pools unavail g cap
              rest _ stF h
            have hcaple := setupQuotas_cap_le choose fuel pools unavail g cap
              rest _ stF h hmidle
            dsimp only at hmono
            omega
          · refine Or.inr (Or.inl ?_)
            refine ⟨⟨poolName, count, nF, stMid.roster.length, plF.isEmpty⟩,
              ?_, by simpa using hnF, by simpa using hcap⟩
            refine setupQuotas_log_mono choose fuel pools unavail g cap rest _
              stF h _ ?_
            exact List.mem_append_right _ (List.mem_singleton.2 rfl)

/-- An individual whose availability index contains this game's key is never
added to the roster by the per-pool quota processing. -/
theorem setupQuotas_unavailable (choose : Nat → List Player → Nat) (fuel : Nat)
    (pools : List (String × List Player)) (unavail : String → List String)
    (g : GameE) (cap : Nat) :
    ∀ (pcs : List (String × Nat)) (st : St) (stF : St),
      setupQuotas choose fuel pools unavail g cap pcs st = some (.ok stF) →
      ∀ (n : String), (unavail n).contains g.key = true →
        n ∈ stF.roster → n ∈ st.roster
  | [], st, stF, h => by
    simp only [setupQuotas, Option.some.injEq, Except.ok.injEq] at h
    subst h
    exact fun n _ hn => hn
  | (poolName, count) :: rest, st, stF, h => by
    rw [setupQuotas] at h
    split at h
    · simp at h
    · dsimp only at h
      split at h
      · simp at h
      · next plF nF stMid heq =>
        intro n hun hn
        have hmid : n ∈ stMid.roster :=
          setupQuotas_unavailable choose fuel pools unavail g cap rest _ stF h
            n hun hn
        rcases quotaLoop_roster_new choose g count cap fuel _ _ _ plF nF stMid
          heq n hmid with h' | h'
        · exact h'
        · exfalso
          rcases List.mem_map.1 h' with ⟨p, hp, rfl⟩
          have hfilter := (List.mem_filter.1 hp).2
          rw [hun] at hfilter
          simp at hfilter

/-! ## `setup` and the quota tables -/

theorem setup_ok_elim (choose : Nat → List Player → Nat) (fuel : Nat)
    (pools : List (String × List Player)) (unavail : String → List String)
    (g : GameE) (st : St) (stF : St)
    (h : setup choose fuel pools unavail g st = some (.ok stF)) :
    ∃ (pcs : List (String × Nat)) (cap : Nat),
      pool_countsOf g.year = some pcs ∧ player_countOf g.year = some cap ∧
      setupQuotas choose fuel pools unavail g cap pcs st = some (.ok stF) := by
  unfold setup at h
  split at h
  · next pcs cap h1 h2 => exact ⟨pcs, cap, h1, h2, h⟩
  · simp at h

theorem quota_sum_ge_cap (y : Nat) (pcs : List (String × Nat)) (cap : Nat)
    (h1 : pool_countsOf y = some pcs) (h2 : player_countOf y = some cap) :
    cap ≤ (pcs.map Prod.snd).sum := by
  unfold pool_countsOf at h1
  unfold player_countOf at h2
  by_cases hy : (y == 2012) = true
  · rw [if_pos hy] at h1 h2
    simp only [Option.some.injEq] at h1 h2
    subst h1
    subst h2
    decide
  · rw [if_neg hy] at h1 h2
    by_cases hy2 : (y == 2013) = true
    · rw [if_pos hy2] at h1 h2
      simp only [Option.some.injEq] at h1 h2
      subst h1
      subst h2
      decide
    · rw [if_neg hy2] at h1
      simp at h1

theorem foldl_rosterAdd_nodup :
    ∀ (pre : List String) (r : List String), r.Nodup →
      (pre.foldl rosterAdd r).Nodup
  | [], r, h => h
  | n :: ns, r, h => foldl_rosterAdd_nodup ns (rosterAdd r n) (rosterAdd_nodup r n h)

theorem initRoster_nodup (pre : List String) : (initRoster pre).Nodup :=
  foldl_rosterAdd_nodup pre [] List.nodup_nil

theorem foldl_rosterAdd_mono :
    ∀ (pre : List String) (r : List String) (n : String), n ∈ r →
      n ∈ pre.foldl rosterAdd r
  | [], _, _, h => h
  | m :: ms, r, n, h =>
    foldl_rosterAdd_mono ms (rosterAdd r m) n (mem_rosterAdd_of_mem r m n h)

theorem mem_initRoster_of_mem :
    ∀ (pre : List String) (r : List String) (n : String), n ∈ pre →
      n ∈ pre.foldl rosterAdd r
  | [], _, _, h => absurd h (List.not_mem_nil _)
  | m :: ms, r, n, h => by
    rcases List.mem_cons.1 h with rfl | h'
    · exact foldl_rosterAdd_mono ms (rosterAdd r n) n (mem_rosterAdd_self r n)
    · exact mem_initRoster_of_mem ms (rosterAdd r m) n h'

theorem mem_initRoster (pre : List String) (n : String) (h : n ∈ pre) :
    n ∈ initRoster pre :=
  mem_initRoster_of_mem pre [] n h

theorem foldl_rosterAdd_sub :
    ∀ (pre : List String) (r : List String) (n : String),
      n ∈ pre.foldl rosterAdd r → n ∈ r ∨ n ∈ pre
  | [], _, _, h => Or.inl h
  | m :: ms, r, n, h => by
    rcases foldl_rosterAdd_sub ms (rosterAdd r m) n h with h' | h'
    · rcases (mem_rosterAdd_iff r m n).1 h' with rfl | h''
      · exact Or.inr (List.mem_cons_self _ _)
      · exact Or.inl h''
    · exact Or.inr (List.mem_cons_of_mem _ h')

theorem initRoster_sub (pre : List String) (n : String)
    (h : n ∈ initRoster pre) : n ∈ pre := by
  rcases foldl_rosterAdd_sub pre [] n h with h' | h'
  · cases h'
  · exact h'

/-! ## Run-level lemmas -/

/-- Capacity bound and fill property of each processed game in a run. -/
theorem runGames_cap (choose : Nat → List Player → Nat) (fuel : Nat)
    (pools : List (String × List Player)) (unavail : String → List String) :
    ∀ (gs : List (GameE × List String)) (s : RunSt) (sF : RunSt),
      runGames choose fuel pools unavail gs s = .ok sF →
      (∀ gp ∈ gs, ∀ cap : Nat, player_countOf gp.1.year = some cap →
        (initRoster gp.2).length ≤ cap) →
      ∀ d ∈ sF.done, d ∈ s.done ∨
        ∃ cap : Nat, player_countOf d.game.year = some cap ∧
          d.roster.length ≤ cap ∧
          ((∀ e ∈ d.log, e.newCnt = e.quota ∨ e.rosterLen = cap) →
            d.roster.length = cap)
  | [], s, sF, h, _ => by
    simp only [runGames, RunOut.ok.injEq] at h
    subst h
    exact fun d hd => Or.inl hd
  | (g, pre) :: rest, s, sF, h, hpre => by
    rw [runGames] at h
    split at h
    · exact absurd h (by simp)
    · exact absurd h (by simp)
    · next stF heq =>
      intro d hd
      obtain ⟨pcs, cap, hpcs, hcap, hsq⟩ :=
        setup_ok_elim choose fuel pools unavail g _ stF heq
      have hpre0 : (initRoster pre).length ≤ cap :=
        hpre (g, pre) (List.mem_cons_self _ _) cap hcap
      rcases runGames_cap choose fuel pools unavail rest _ sF h
        (fun gp hgp => hpre gp (List.mem_cons_of_mem _ hgp)) d hd with h' | h'
      · rcases List.mem_append.1 h' with h'' | h''
        · exact Or.inl h''
        · rcases List.mem_singleton.1 h'' with rfl
          refine Or.inr ⟨cap, hcap, ?_, ?_⟩
          · exact setupQuotas_cap_le choose fuel pools unavail g cap pcs _ stF
              hsq hpre0
          · intro hnouf
            rcases setupQuotas_fill choose fuel pools unavail g cap pcs _ stF
              hsq hpre0 with hx | hx | hx
            · exact hx
            · exfalso
              obtain ⟨e, he, he1, he2⟩ := hx
              rcases hnouf e he with h3 | h3
              · exact he1 h3
              · exact he2 h3
            · have hsum := quota_sum_ge_cap g.year pcs cap hpcs hcap
              have hle := setupQuotas_cap_le choose fuel pools unavail g cap pcs
                _ stF hsq hpre0
              dsimp only at hx
              show stF.roster.length = cap
              omega
      · exact Or.inr h'

/-- Locked entries persist and every quota exit is quota-met, exhausted, or
capacity-reached. -/
theorem runGames_locked (choose : Nat → List Player → Nat) (fuel : Nat)
    (pools : List (String × List Player)) (unavail : String → List String) :
    ∀ (gs : List (GameE × List String)) (s : RunSt) (sF : RunSt),
      runGames choose fuel pools unavail gs s = .ok sF →
      ∀ d ∈ sF.done, d ∈ s.done ∨
        ((∀ n ∈ d.pre, n ∈ d.roster) ∧
          ∃ cap : Nat, player_countOf d.game.year = some cap ∧
            ∀ e ∈ d.log, e.newCnt = e.quota ∨ e.exhausted = true ∨
              e.rosterLen = cap)
  | [], s, sF, h => by
    simp only [runGames, RunOut.ok.injEq] at h
    subst h
    exact fun d hd => Or.inl hd
  | (g, pre) :: rest, s, sF, h => by
    rw [runGames] at h
    split at h
    · exact absurd h (by simp)
    · exact absurd h (by simp)
    · next stF heq =>
      intro d hd
      obtain ⟨pcs, cap, hpcs, hcap, hsq⟩ :=
        setup_ok_elim choose fuel pools unavail g _ stF heq
      rcases runGames_locked choose fuel pools unavail rest _ sF h d hd
        with h' | h'
      · rcases List.mem_append.1 h' with h'' | h''
        · exact Or.inl h''
        · rcases List.mem_singleton.1 h'' with rfl
          refine Or.inr ⟨?_, cap, hcap, ?_⟩
          · intro n hn
            exact setupQuotas_roster_mono choose fuel pools unavail g cap pcs _
              stF hsq n hn
          · intro e he
            rcases setupQuotas_log_new choose fuel pools unavail g cap pcs _
              stF hsq e he with hx | hx
            · cases hx
            · exact hx
      · exact Or.inr h'

/-- An unavailable individual is on a game's final roster exactly when it
was pre-seeded there. -/
theorem runGames_unavailable (choose : Nat → List Player → Nat) (fuel : Nat)
    (pools : List (String × List Player)) (unavail : String → List String) :
    ∀ (gs : List (GameE × List String)) (s : RunSt) (sF : RunSt),
      runGames choose fuel pools unavail gs s = .ok sF →
      ∀ d ∈ sF.done, d ∈ s.done ∨
        ∀ n, (unavail n).contains d.game.key = true →
          (n ∈ d.roster ↔ n ∈ d.pre)
  | [], s, sF, h => by
    simp only [runGames, RunOut.ok.injEq] at h
    subst h
    exact fun d hd => Or.inl hd
  | (g, pre) :: rest, s, sF, h => by
    rw [runGames] at h
    split at h
    · exact absurd h (by simp)
    · exact absurd h (by simp)
    · next stF heq =>
      intro d hd
      obtain ⟨pcs, cap, hpcs, hcap, hsq⟩ :=
        setup_ok_elim choose fuel pools unavail g _ stF heq
      rcases runGames_unavailable choose fuel pools unavail rest _ sF h d hd
        with h' | h'
      · rcases List.mem_append.1 h' with h'' | h''
        · exact Or.inl h''
        · rcases List.mem_singleton.1 h'' with rfl
          refine Or.inr ?_
          intro n hun
          constructor
          · intro hn
            exact setupQuotas_unavailable choose fuel pools unavail g cap pcs _
              stF hsq n hun hn
          · intro hn
            exact setupQuotas_roster_mono choose fuel pools unavail g cap pcs _
              stF hsq n hn
      · exact Or.inr h'

/-! ## Claim C1 -/

/-- C1 counterexample: the claim "after the allocation run completes, the
size of E's roster is at most the capacity determined by E's format … even
when E's roster was pre-seeded with locked/previous entries" is false: a
2013-format game (capacity 9) pre-seeded with ten locked entries completes
allocation with a roster of 19 entries, because every quota still fills
completely while the roster size can never equal the capacity. -/
theorem C1_counterexample :
    outKind runA = 0 ∧ player_countOf g13.year = some 9 ∧
      (doneRosters runA).map List.length = [19] ∧ ¬(19 ≤ 9) := by
  refine ⟨by decide, by decide, by decide, by decide⟩

/-- C1 (amended): for every completed allocation run in which each event's
pre-seeded roster has at most capacity entries, every event's final roster
size is at most the capacity determined by its format (16 for year 2012, 9
for year 2013), and equals that capacity unless some quota of the event
exited with fewer newly selected players than its quota while the roster was
strictly below capacity (candidate exhaustion under-fill). -/
theorem C1_thm (choose : Nat → List Player → Nat) (fuel : Nat)
    (pools : List (String × List Player)) (unavail : String → List String)
    (gs : List (GameE × List String)) (sF : RunSt)
    (hok : runAll choose fuel pools unavail gs = .ok sF)
    (hpre : ∀ gp ∈ gs, ∀ cap : Nat, player_countOf gp.1.year = some cap →
      (initRoster gp.2).length ≤ cap) :
    ∀ d ∈ sF.done, ∃ cap : Nat, player_countOf d.game.year = some cap ∧
      d.roster.length ≤ cap ∧
      ((∀ e ∈ d.log, e.newCnt = e.quota ∨ e.rosterLen = cap) →
        d.roster.length = cap) := by
  intro d hd
  rcases runGames_cap choose fuel pools unavail gs _ sF hok hpre d hd with h | h
  · cases h
  · exact h

/-- Witness for C1: the amended theorem applied to a concrete completed run
(one 2013 game, no pre-seed), whose roster indeed reaches capacity 9. -/
theorem C1_witness :
    ∃ sF, runAll chooseZ 100 poolsStd noUnav [(g13, [])] = RunOut.ok sF ∧
      ∀ d ∈ sF.done, ∃ cap : Nat, player_countOf d.game.year = some cap ∧
        d.roster.length ≤ cap ∧
        ((∀ e ∈ d.log, e.newCnt = e.quota ∨ e.rosterLen = cap) →
          d.roster.length = cap) := by
  cases hrun : runAll chooseZ 100 poolsStd noUnav [(g13, [])] with
  | ok sF =>
    refine ⟨sF, rfl, C1_thm chooseZ 100 poolsStd noUnav _ sF hrun ?_⟩
    intro gp hgp cap hcap
    rcases List.mem_singleton.1 hgp with rfl
    have : cap = 9 := by
      simp [player_countOf, g13] at hcap
      omega
    subst this
    decide
  | err m s =>
    exfalso
    have h0 : outKind (runAll chooseZ 100 poolsStd noUnav [(g13, [])]) = 0 := by
      decide
    rw [hrun] at h0
    simp [outKind] at h0
  | spin =>
    exfalso
    have h0 : outKind (runAll chooseZ 100 poolsStd noUnav [(g13, [])]) = 0 := by
      decide
    rw [hrun] at h0
    simp [outKind] at h0

/-! ## Claim C2 -/

/-- C2 counterexample: the claim "for each pool the number of newly selected
individuals equals the configured quota minus the number of locked entries
belonging to that pool" is false: with the locked entry `x` belonging to
pool `p13-stark` (quota 2), the run still selects 2 new `p13-stark` players
(the quota log entry shows `newCnt = 2`), not 2 − 1 = 1. -/
theorem C2_counterexample :
    outKind runB = 0 ∧
      doneLogs runB =
        [[⟨"p13-stark", 2, 2, 3, false⟩, ⟨"p13-mellan", 5, 5, 8, true⟩,
          ⟨"p13-junior", 2, 1, 9, false⟩]] ∧
      histLenAt runB (mkP "s1" "p13-stark") = some 1 ∧
      histLenAt runB (mkP "s2" "p13-stark") = some 1 ∧
      histLenAt runB (mkP "x" "p13-stark") = some 0 ∧
      ¬(2 = 2 - 1) := by
  refine ⟨by decide, by decide, by decide, by decide, by decide, by decide⟩

/-- C2 (amended): after a completed allocation run, every locked/previous
roster entry is still present in the event's final roster; but locked
entries do not count toward pool quotas: each quota fill exits only once the
full configured quota of newly selected individuals is reached, or its
candidates are exhausted, or the roster has reached the format capacity —
independently of how many locked entries belong to the pool. -/
theorem C2_thm (choose : Nat → List Player → Nat) (fuel : Nat)
    (pools : List (String × List Player)) (unavail : String → List String)
    (gs : List (GameE × List String)) (sF : RunSt)
    (hok : runAll choose fuel pools unavail gs = .ok sF) :
    ∀ d ∈ sF.done, (∀ n ∈ d.pre, n ∈ d.roster) ∧
      ∃ cap : Nat, player_countOf d.game.year = some cap ∧
        ∀ e ∈ d.log, e.newCnt = e.quota ∨ e.exhausted = true ∨
          e.rosterLen = cap := by
  intro d hd
  rcases runGames_locked choose fuel pools unavail gs _ sF hok d hd with h | h
  · cases h
  · exact h

/-- Witness for C2: the amended theorem applied to the concrete run with
locked entry `x`. -/
theorem C2_witness :
    ∃ sF, runAll chooseZ 100 poolsB noUnav [(g13, ["x"])] = RunOut.ok sF ∧
      ∀ d ∈ sF.done, (∀ n ∈ d.pre, n ∈ d.roster) ∧
        ∃ cap : Nat, player_countOf d.game.year = some cap ∧
          ∀ e ∈ d.log, e.newCnt = e.quota ∨ e.exhausted = true ∨
            e.rosterLen = cap := by
  cases hrun : runAll chooseZ 100 poolsB noUnav [(g13, ["x"])] with
  | ok sF => exact ⟨sF, rfl, C2_thm chooseZ 100 poolsB noUnav _ sF hrun⟩
  | err m s =>
    exfalso
    have h0 : outKind (runAll chooseZ 100 poolsB noUnav [(g13, ["x"])]) = 0 := by
      decide
    rw [hrun] at h0
    simp [outKind] at h0
  | spin =>
    exfalso
    have h0 : outKind (runAll chooseZ 100 poolsB noUnav [(g13, ["x"])]) = 0 := by
      decide
    rw [hrun] at h0
    simp [outKind] at h0

/-! ## Claim C6 -/

/-- C6: for every completed allocation run, every event E of the run and
every individual whose availability index contains E's event key, allocation
never adds that individual to E's roster: the name is on the final roster
exactly when it was pre-seeded there (this holds in particular when that
individual is the unique least-played candidate, since the statement is
unconditional in the histories). -/
theorem C6_thm (choose : Nat → List Player → Nat) (fuel : Nat)
    (pools : List (String × List Player)) (unavail : String → List String)
    (gs : List (GameE × List String)) (sF : RunSt)
    (hok : runAll choose fuel pools unavail gs = .ok sF) :
    ∀ d ∈ sF.done, ∀ n, (unavail n).contains d.game.key = true →
      (n ∈ d.roster ↔ n ∈ d.pre) := by
  intro d hd
  rcases runGames_unavailable choose fuel pools unavail gs _ sF hok d hd
    with h | h
  · cases h
  · exact h

/-- Witness for C6: in the concrete run where `x` (a `p13-stark` member) is
unavailable for the game with key `"k1"`, `x` is not on the final roster. -/
theorem C6_witness :
    ∃ sF, runAll chooseZ 100 poolsB unavX [(g13, [])] = RunOut.ok sF ∧
      ∀ d ∈ sF.done, ∀ n, (unavX n).contains d.game.key = true →
        (n ∈ d.roster ↔ n ∈ d.pre) := by
  cases hrun : runAll chooseZ 100 poolsB unavX [(g13, [])] with
  | ok sF => exact ⟨sF, rfl, C6_thm chooseZ 100 poolsB unavX _ sF hrun⟩
  | err m s =>
    exfalso
    have h0 : outKind (runAll chooseZ 100 poolsB unavX [(g13, [])]) = 0 := by
      decide
    rw [hrun] at h0
    simp [outKind] at h0
  | spin =>
    exfalso
    have h0 : outKind (runAll chooseZ 100 poolsB unavX [(g13, [])]) = 0 := by
      decide
    rw [hrun] at h0
    simp [outKind] at h0

/-! ## Claim C7 -/

/-- C7 counterexample: the claim "the run fails before any allocation
mutation occurs: no event's roster and no individual's history is modified
before the failure is raised" is false: with a valid 2013 game followed by a
game of unknown year 2014, the run raises `KeyError` only when it reaches
the second game, and at that point the first game's roster already holds 9
allocated players and player `s1`'s history has length 1. -/
theorem C7_counterexample :
    outKind runE = 1 ∧ (doneRosters runE).map List.length = [9, 0] ∧
      histLenAt runE (mkP "s1" "p13-stark") = some 1 ∧ ¬(9 = 0) := by
  refine ⟨by decide, by decide, by decide, by decide⟩

/-- C7 (amended): if an event references a year with no declared capacity or
quota table, the run raises the failure exactly when that event's allocation
begins: the failing event's roster keeps only its pre-seeded entries, no
history and no later event is touched — but events processed earlier in the
sequence have already been allocated and their mutations persist. -/
theorem C7_thm (choose : Nat → List Player → Nat) (fuel : Nat)
    (pools : List (String × List Player)) (unavail : String → List String)
    (g : GameE) (pre : List String) (rest : List (GameE × List String))
    (s : RunSt) (hbad : g.year ≠ 2012 ∧ g.year ≠ 2013) :
    runGames choose fuel pools unavail ((g, pre) :: rest) s =
      .err "KeyError: year"
        ⟨s.done ++ [⟨g, initRoster pre, initRoster pre, []⟩], s.hist, s.ctr⟩ := by
  have h1 : pool_countsOf g.year = none := by
    unfold pool_countsOf
    rw [if_neg (by simp [hbad.1]), if_neg (by simp [hbad.2])]
  rw [runGames]
  unfold setup
  rw [h1]

/-- Witness for C7: the amended theorem applied to a concrete unknown-year
game, with no prior state. -/
theorem C7_witness :
    runGames chooseZ 100 poolsStd noUnav [(gBad, [])] ⟨[], fun _ => [], 0⟩ =
      .err "KeyError: year" ⟨[⟨gBad, [], [], []⟩], fun _ => [], 0⟩ :=
  C7_thm chooseZ 100 poolsStd noUnav gBad [] [] ⟨[], fun _ => [], 0⟩
    (by refine ⟨by decide, by decide⟩)

/-! ## Minimum-fold helpers and the argmin characterization -/

theorem foldr_min_le_base : ∀ (L : List Nat) (b : Nat), L.foldr min b ≤ b
  | [], _ => Nat.le_refl _
  | x :: L, b => by
    rw [List.foldr_cons]
    exact (Nat.min_le_right x _).trans (foldr_min_le_base L b)

theorem foldr_min_le_mem : ∀ (L : List Nat) (b x : Nat), x ∈ L →
    L.foldr min b ≤ x
  | [], _, _, h => absurd h (List.not_mem_nil _)
  | y :: L, b, x, h => by
    rw [List.foldr_cons]
    rcases List.mem_cons.1 h with rfl | h'
    · exact Nat.min_le_left x _
    · exact (Nat.min_le_right y _).trans (foldr_min_le_mem L b x h')

theorem le_foldr_min : ∀ (L : List Nat) (b c : Nat), c ≤ b →
    (∀ x ∈ L, c ≤ x) → c ≤ L.foldr min b
  | [], _, _, hb, _ => hb
  | x :: L, b, c, hb, hL => by
    rw [List.foldr_cons]
    exact le_min (hL x (List.mem_cons_self _ _))
      (le_foldr_min L b c hb (fun y hy => hL y (List.mem_cons_of_mem _ hy)))

theorem foldr_min_base_le : ∀ (L : List Nat) (b c : Nat), c ≤ b →
    min c (L.foldr min b) = L.foldr min c
  | [], b, c, h => by
    rw [List.foldr_nil, List.foldr_nil]
    omega
  | x :: L, b, c, h => by
    rw [List.foldr_cons, List.foldr_cons, ← foldr_min_base_le L b c h]
    omega

theorem gplgStep_lt (cnt : Player → Nat) (acc : List Player × Nat) (p : Player)
    (h : cnt p < acc.2) : gplgStep cnt acc p = ([p], cnt p) := by
  unfold gplgStep
  rw [if_pos h]
  simp [playerEq]

theorem gplgStep_eq (cnt : Player → Nat) (acc : List Player × Nat) (p : Player)
    (h : cnt p = acc.2) (hnm : ∀ r ∈ acc.1, p.name ≠ r.name) :
    gplgStep cnt acc p = (acc.1 ++ [p], acc.2) := by
  have hany : (acc.1.any fun q => playerEq q p) = false := by
    by_contra hc
    rw [Bool.not_eq_false, List.any_eq_true] at hc
    obtain ⟨r, hr, hpe⟩ := hc
    exact hnm r hr ((playerEq_iff r p).1 hpe).symm
  have hnlt : ¬ (cnt p < acc.2) := by omega
  have hbeq : (cnt p == acc.2) = true := by simp [h]
  unfold gplgStep
  rw [if_neg hnlt]
  dsimp only
  rw [if_pos hbeq, hany]
  simp

theorem gplgStep_gt (cnt : Player → Nat) (acc : List Player × Nat) (p : Player)
    (h : acc.2 < cnt p) : gplgStep cnt acc p = acc := by
  have hnlt : ¬ (cnt p < acc.2) := by omega
  have hbne : ¬ ((cnt p == acc.2) = true) := by simp; omega
  unfold gplgStep
  rw [if_neg hnlt]
  dsimp only
  rw [if_neg hbne]

theorem gplg_fold_char (cnt : Player → Nat) :
    ∀ (l : List Player) (acc : List Player × Nat),
      (∀ r ∈ acc.1, cnt r = acc.2) →
      (∀ p ∈ l, ∀ r ∈ acc.1, p.name ≠ r.name) →
      ((l.map Player.name).Nodup) →
      l.foldl (gplgStep cnt) acc =
        ((if (l.map cnt).foldr min acc.2 < acc.2 then [] else acc.1) ++
          l.filter (fun p => decide (cnt p = (l.map cnt).foldr min acc.2)),
          (l.map cnt).foldr min acc.2)
  | [], acc, _, _, _ => by simp
  | p :: l, acc, hval, hdisj, hlnd => by
    have hpdisj : ∀ r ∈ acc.1, p.name ≠ r.name :=
      hdisj p (List.mem_cons_self p l)
    have hlnd2 : (l.map Player.name).Nodup := by
      rw [List.map_cons, List.nodup_cons] at hlnd
      exact hlnd.2
    have hpnotl : p.name ∉ l.map Player.name := by
      rw [List.map_cons, List.nodup_cons] at hlnd
      exact hlnd.1
    rw [List.foldl_cons]
    by_cases hlt : cnt p < acc.2
    · rw [gplgStep_lt cnt acc p hlt]
      have hrec := gplg_fold_char cnt l ([p], cnt p)
        (by intro r hr; rcases List.mem_singleton.1 hr with rfl; rfl)
        (by
          intro q hq r hr
          rcases List.mem_singleton.1 hr with rfl
          intro he
          exact hpnotl (he ▸ List.mem_map_of_mem _ hq))
        hlnd2
      rw [hrec]
      have hm : ((p :: l).map cnt).foldr min acc.2 =
          (l.map cnt).foldr min (cnt p) := by
        rw [List.map_cons, List.foldr_cons]
        exact foldr_min_base_le (l.map cnt) acc.2 (cnt p) (Nat.le_of_lt hlt)
      have hm2cp : (l.map cnt).foldr min (cnt p) ≤ cnt p :=
        foldr_min_le_base _ _
      have hcond1 : (l.map cnt).foldr min (cnt p) < acc.2 := by omega
      rw [hm, if_pos hcond1, List.nil_append, List.filter_cons]
      by_cases h2 : cnt p = (l.map cnt).foldr min (cnt p)
      · have hd : (decide (cnt p = (l.map cnt).foldr min (cnt p))) = true :=
          decide_eq_true h2
        have hnlt2 : ¬ ((l.map cnt).foldr min (cnt p) < cnt p) := by omega
        rw [hd, if_pos rfl, if_neg hnlt2]
        rfl
      · have hd : (decide (cnt p = (l.map cnt).foldr min (cnt p))) = false :=
          decide_eq_false h2
        have hlt2 : (l.map cnt).foldr min (cnt p) < cnt p := by omega
        rw [hd, if_pos hlt2, List.nil_append]
        simp
    · have hge : acc.2 ≤ cnt p := Nat.le_of_not_lt hlt
      have hmR_le : (l.map cnt).foldr min acc.2 ≤ acc.2 := foldr_min_le_base _ _
      have hm : ((p :: l).map cnt).foldr min acc.2 =
          (l.map cnt).foldr min acc.2 := by
        rw [List.map_cons, List.foldr_cons]
        omega
      by_cases heq : cnt p = acc.2
      · rw [gplgStep_eq cnt acc p heq hpdisj]
        have hrec := gplg_fold_char cnt l (acc.1 ++ [p], acc.2)
          (by
            intro r hr
            rcases List.mem_append.1 hr with hr2 | hr2
            · exact hval r hr2
            · rcases List.mem_singleton.1 hr2 with rfl; exact heq)
          (by
            intro q hq r hr
            rcases List.mem_append.1 hr with hr2 | hr2
            · exact hdisj q (List.mem_cons_of_mem _ hq) r hr2
            · rcases List.mem_singleton.1 hr2 with rfl
              intro he
              exact hpnotl (he ▸ List.mem_map_of_mem _ hq))
          hlnd2
        rw [hrec, hm]
        by_cases h3 : (l.map cnt).foldr min acc.2 < acc.2
        · have hd : (decide (cnt p = (l.map cnt).foldr min acc.2)) = false :=
            decide_eq_false (by omega)
          rw [if_pos h3, if_pos h3, List.filter_cons, hd]
          simp
        · have hd : (decide (cnt p = (l.map cnt).foldr min acc.2)) = true :=
            decide_eq_true (by omega)
          rw [if_neg h3, if_neg h3, List.filter_cons, hd, if_pos rfl,
            List.append_assoc]
          rfl
      · have hgt : acc.2 < cnt p := by omega
        rw [gplgStep_gt cnt acc p hgt]
        have hrec := gplg_fold_char cnt l acc hval
          (fun q hq => hdisj q (List.mem_cons_of_mem _ hq)) hlnd2
        have hd : (decide (cnt p = (l.map cnt).foldr min acc.2)) = false :=
          decide_eq_false (by omega)
        rw [hrec, hm, List.filter_cons, hd]
        simp

/-- Under distinct names and counts within the sentinel bound, the fold in
`get_players_with_least_games` computes exactly the minimum-metric subset,
in order. -/
theorem gplg_eq_leastByMetric (cnt : Player → Nat) (l : List Player)
    (hnd : (l.map Player.name).Nodup) (hb : ∀ p ∈ l, cnt p ≤ 1000) :
    get_players_with_least_games cnt l = leastByMetric cnt l := by
  unfold get_players_with_least_games leastByMetric
  rw [gplg_fold_char cnt l ([], 1000) (by intro r hr; cases hr)
    (by intro q _ r hr; cases hr) hnd]
  dsimp only
  rw [ite_self, List.nil_append]
  apply List.filter_congr
  intro p hp
  have h1 : (l.map cnt).foldr min 1000 ≤ cnt p :=
    foldr_min_le_mem _ _ _ (List.mem_map_of_mem cnt hp)
  by_cases hP : cnt p = (l.map cnt).foldr min 1000
  · rw [decide_eq_true hP]
    symm
    rw [List.all_eq_true]
    intro q hq
    rw [decide_eq_true_eq]
    calc cnt p = (l.map cnt).foldr min 1000 := hP
      _ ≤ cnt q := foldr_min_le_mem _ _ _ (List.mem_map_of_mem cnt hq)
  · rw [decide_eq_false hP]
    symm
    rw [← Bool.not_eq_true, List.all_eq_true]
    intro hall
    apply hP
    have h2 : cnt p ≤ (l.map cnt).foldr min 1000 := by
      refine le_foldr_min _ _ _ (hb p hp) ?_
      intro x hx
      rcases List.mem_map.1 hx with ⟨q, hq, rfl⟩
      exact of_decide_eq_true (hall q hq)
    omega

/-! ## Claim C9 -/

/-- C9: on every iteration of the fill loop, the subset handed to
`add_players` is the first non-empty entry of the cascade
`notSameWeekend(priority)`, `notSameWeekend(leastPlayed)`, `priority`,
`leastPlayed`, where `priority` is the minimum home-games (home event) or
minimum away-games (away event) subset of `leastPlayed`.  Stated for any
candidate set with distinct names whose members' games counts are within the
source's `least_games = 1000` sentinel — both properties hold of the
candidate sets the loop actually produces. -/
theorem C9_thm (h : Hist) (g : GameE) (cands : List Player)
    (hnd : (cands.map Player.name).Nodup)
    (hb : ∀ p ∈ cands, games_count (h p) ≤ 1000) :
    chosenSubset h g cands = specCascade h g cands := by
  have hbh : ∀ p ∈ cands, home_games_count (h p) ≤ 1000 := fun p hp =>
    (List.length_filter_le _ _).trans (hb p hp)
  have hba : ∀ p ∈ cands, away_games_count (h p) ≤ 1000 := fun p hp =>
    (List.length_filter_le _ _).trans (hb p hp)
  unfold chosenSubset specCascade
  by_cases hh : g.isHome
  · rw [if_pos hh, if_pos hh,
      gplg_eq_leastByMetric (fun p => home_games_count (h p)) cands hnd hbh]
    simp only [firstNonempty]
    split_ifs <;> first | rfl | (next h4 => simpa using h4)
  · rw [if_neg hh, if_neg hh,
      gplg_eq_leastByMetric (fun p => away_games_count (h p)) cands hnd hba]
    simp only [firstNonempty]
    split_ifs <;> first | rfl | (next h4 => simpa using h4)

/-- Witness for C9: the cascade equivalence evaluated at a concrete
candidate set and empty histories. -/
theorem C9_witness :
    chosenSubset (fun _ => []) g13 [mkP "a" "q"] =
      specCascade (fun _ => []) g13 [mkP "a" "q"] :=
  C9_thm (fun _ => []) g13 [mkP "a" "q"] (by decide) (by decide)

/-! ## Claim C10 -/

/-- C10: player identity is name-only: `Player.__eq__` compares exactly the
names, regardless of pool label (histories are stored per object and do not
enter the comparison); consequently adding an already-present name to the
roster set is a no-op and keeps the roster free of duplicate names, and a
pool member whose name is already on the roster (for example via a locked
entry from a different pool) is excluded from the candidate set. -/
theorem C10_thm :
    (∀ n1 p1 n2 p2 : String,
      playerEq (Player.mk n1 p1) (Player.mk n2 p2) = true ↔ n1 = n2) ∧
    (∀ (r : List String) (n : String), r.Nodup → (rosterAdd r n).Nodup) ∧
    (∀ (r : List String) (n : String), n ∈ r → rosterAdd r n = r) ∧
    (∀ (h : Hist) (r : List String) (pl : List Player) (p : Player),
      p.name ∈ r → p ∉ candidatesOf h r pl) := by
  refine ⟨?_, rosterAdd_nodup, ?_, ?_⟩
  · intro n1 p1 n2 p2
    exact playerEq_iff _ _
  · intro r n hn
    unfold rosterAdd
    rw [if_pos ((contains_iff r n).2 hn)]
  · intro h r pl p hr hp
    exact candidatesOf_not_rostered h r pl p hp hr

/-- Witness for C10: two players with equal names but different pools are
equal under `playerEq`; a same-named entry on the roster keeps a pool
member out of the candidate set. -/
theorem C10_witness :
    (playerEq (Player.mk "a" "x") (Player.mk "a" "y") = true) ∧
    (rosterAdd ["a"] "a").Nodup ∧ rosterAdd ["a"] "a" = ["a"] ∧
    mkP "a" "z" ∉ candidatesOf (fun _ => []) ["a"] [mkP "a" "z"] :=
  ⟨(C10_thm.1 "a" "x" "a" "y").2 rfl,
    C10_thm.2.1 ["a"] "a" (by decide),
    C10_thm.2.2.1 ["a"] "a" (by decide),
    C10_thm.2.2.2 (fun _ => []) ["a"] [mkP "a" "z"] (mkP "a" "z") (by decide)⟩

/-! ## Claim C4 -/

/-- C4 (evaluation of the code at the failing inputs): the claim says the
not-same-weekend filter keeps exactly the players all of whose history
entries are in a different ISO week, with empty-history players kept and
any-same-week players dropped.  The code does the opposite on both counts
(its inner loop ends in a dead `continue`, so one different-week entry
suffices): a player with an empty history is dropped, and a player with one
same-week entry (`g13` itself) and one different-week entry (`g13b`) is
kept. -/
theorem C4_thm :
    players_not_playing_same_weekend (fun _ => []) g13 [mkP "a" "q"] = [] ∧
    players_not_playing_same_weekend
      (fun p => if p = mkP "b" "q" then [g13, g13b] else []) g13
      [mkP "b" "q"] = [mkP "b" "q"] := by
  refine ⟨by decide, by decide⟩

/-! ## Claim C5 -/

/-- With both pool members name-shadowed by locked roster entries, one
iteration of the fill loop makes no progress, for every random source and
any amount of fuel. -/
theorem c5_quota_stuck (choose : Nat → List Player → Nat) :
    ∀ fuel : Nat,
      quotaLoop choose g13 2 9 fuel
        [mkP "x" "p13-stark", mkP "y" "p13-stark"] 0
        ⟨initRoster ["x", "y"], fun _ => [], 0, []⟩ = none
  | 0 => rfl
  | fuel + 1 => by
    rw [quotaLoop]
    split
    · exact c5_quota_stuck choose fuel
    · next hcond =>
      exact absurd ⟨by decide, by decide, by decide⟩ hcond

/-- A quota whose fill loop spins makes the whole per-pool processing
spin. -/
theorem setupQuotas_none_of_quota_none (choose : Nat → List Player → Nat)
    (fuel : Nat) (pools : List (String × List Player))
    (unavail : String → List String) (g : GameE) (cap : Nat)
    (poolName : String) (count : Nat) (rest : List (String × Nat)) (st : St)
    (members : List Player)
    (hlk : lookupPool pools poolName = some members)
    (hq : quotaLoop choose g count cap fuel
      ((dedupByName members).filter
        (fun p => !((unavail p.name).contains g.key))) 0 st = none) :
    setupQuotas choose fuel pools unavail g cap ((poolName, count) :: rest) st
      = none := by
  rw [setupQuotas, hlk]
  dsimp only
  rw [hq]

/-- C5: the claim that the per-quota fill loop always terminates is false:
when every remaining pool member is name-shadowed by a locked roster entry,
the candidate set (pool copy minus roster) is empty while the loop guard —
which tests the pool copy, not the candidate set — still holds, so the loop
repeats forever without progress.  Concretely, a 2013 game pre-seeded with
locked entries `x` and `y` over the pool `p13-stark = [x, y]` spins for
every random source and every fuel bound. -/
theorem C5_thm :
    ∀ (choose : Nat → List Player → Nat) (fuel : Nat),
      runAll choose fuel poolsF noUnav [(g13, ["x", "y"])] = RunOut.spin := by
  intro choose fuel
  have hq := c5_quota_stuck choose fuel
  have hsetup : setup choose fuel poolsF noUnav g13
      ⟨initRoster ["x", "y"], fun _ => [], 0, []⟩ = none := by
    have h := setupQuotas_none_of_quota_none choose fuel poolsF noUnav g13 9
      "p13-stark" 2 [("p13-mellan", 5), ("p13-junior", 2)]
      ⟨initRoster ["x", "y"], fun _ => [], 0, []⟩
      [mkP "x" "p13-stark", mkP "y" "p13-stark"] (by rfl) (by exact hq)
    exact h
  unfold runAll
  rw [runGames]
  dsimp only
  rw [hsetup]

/-! ## Claim C8: no duplicate roster entries, no duplicate history entries -/

theorem nodup_snoc {α : Type} (l : List α) (x : α) (h : l.Nodup) (hx : x ∉ l) :
    (l ++ [x]).Nodup :=
  List.nodup_append.2 ⟨h, List.nodup_singleton x,
    fun a ha hb => hx (List.mem_singleton.1 hb ▸ ha)⟩

theorem drain_histinv (choose : Nat → List Player → Nat) (g : GameE)
    (count cap : Nat) :
    ∀ (fuel : Nat) (group players : List Player) (newCnt : Nat) (st : St),
      (∀ p ∈ group, p.name ∉ st.roster) → (group.map Player.name).Nodup →
      HistInv g st → HistNodup st.hist →
      HistInv g (drain choose g count cap fuel group players newCnt st).2.2 ∧
        HistNodup ((drain choose g count cap fuel group players newCnt st).2.2).hist
  | 0, _, _, _, _, _, _, hi, hn => ⟨hi, hn⟩
  | fuel + 1, group, players, newCnt, st, hfresh, hnd, hi, hn => by
    rw [drain]
    split
    · next hcond =>
      dsimp only
      set p := group.getD (choose st.ctr group % group.length) (Player.mk "" "")
        with hp
      have hpm : p ∈ group := pick_mem group _ hcond.2.2
      have hpfresh : p.name ∉ st.roster := hfresh p hpm
      have hgnotin : g.gid ∉ (st.hist p).map GameE.gid := fun hmem =>
        hpfresh (hi p hmem)
      have hfresh2 : ∀ q ∈ eraseByName group p.name,
          q.name ∉ rosterAdd st.roster p.name := by
        intro q hq hmem
        rcases (mem_rosterAdd_iff _ _ _).1 hmem with hqe | hr
        · exact eraseByName_names_ne group p.name hnd q hq hqe
        · exact hfresh q ((eraseByName_sublist group _).subset hq) hr
      have hnd2 : ((eraseByName group p.name).map Player.name).Nodup :=
        hnd.sublist ((eraseByName_sublist group _).map Player.name)
      have hi2 : HistInv g
          { roster := rosterAdd st.roster p.name
            hist := histAppend st.hist p g
            ctr := st.ctr + 1
            log := st.log } := by
        intro q hq
        dsimp only at hq
        by_cases hqp : q = p
        · subst hqp
          exact mem_rosterAdd_self _ _
        · rw [show (histAppend st.hist p g q) = st.hist q from
            histAppend_ne st.hist p q g hqp] at hq
          exact mem_rosterAdd_of_mem _ _ _ (hi q hq)
      have hn2 : HistNodup (histAppend st.hist p g) := by
        intro q
        by_cases hqp : q = p
        · subst hqp
          rw [histAppend_self, List.map_append]
          exact nodup_snoc _ _ (hn p) hgnotin
        · rw [histAppend_ne st.hist p q g hqp]
          exact hn q
      exact drain_histinv choose g count cap fuel _ _ _ _ hfresh2 hnd2 hi2 hn2
    · exact ⟨hi, hn⟩

theorem drainAll_histinv (choose : Nat → List Player → Nat) (g : GameE)
    (count cap : Nat) :
    ∀ (groups : List (List Player)) (players : List Player) (newCnt : Nat)
      (st : St),
      (∀ p ∈ groups.flatten, p.name ∉ st.roster) →
      ((groups.flatten.map Player.name)).Nodup →
      HistInv g st → HistNodup st.hist →
      HistInv g (drainAll choose g count cap groups players newCnt st).2.2 ∧
        HistNodup ((drainAll choose g count cap groups players newCnt st).2.2).hist
  | [], _, _, _, _, _, hi, hn => ⟨hi, hn⟩
  | grp :: rest, players, newCnt, st, hfresh, hnd, hi, hn => by
    rw [drainAll]
    have hjoin : ∀ p ∈ grp, p ∈ (grp :: rest).flatten := fun p hp =>
      List.mem_flatten.2 ⟨grp, List.mem_cons_self _ _, hp⟩
    have hjoin2 : ∀ p ∈ rest.flatten, p ∈ (grp :: rest).flatten := by
      intro p hp
      rcases List.mem_flatten.1 hp with ⟨l, hl, hpl⟩
      exact List.mem_flatten.2 ⟨l, List.mem_cons_of_mem _ hl, hpl⟩
    have hflat_eq : (grp :: rest).flatten = grp ++ rest.flatten := by
      simp [List.flatten_cons]
    have hndflat := hnd
    rw [hflat_eq, List.map_append, List.nodup_append] at hndflat
    have h1 := drain_histinv choose g count cap grp.length grp players newCnt st
      (fun p hp => hfresh p (hjoin p hp)) hndflat.1 hi hn
    set r := drain choose g count cap grp.length grp players newCnt st with hr
    have hfresh2 : ∀ p ∈ rest.flatten, p.name ∉ r.2.2.roster := by
      intro p hp hmem
      rcases drain_roster_new choose g count cap grp.length grp players newCnt
        st p.name hmem with h' | h'
      · exact hfresh p (hjoin2 p hp) h'
      · exact hndflat.2.2 h' (List.mem_map_of_mem _ hp)
    exact drainAll_histinv choose g count cap rest r.1 r.2.1 r.2.2 hfresh2
      hndflat.2.1 h1.1 h1.2

theorem add_players_histinv (choose : Nat → List Player → Nat) (g : GameE)
    (count cap : Nat) (nominated players : List Player) (newCnt : Nat) (st : St)
    (hfresh : ∀ p ∈ nominated, p.name ∉ st.roster)
    (hnd : (nominated.map Player.name).Nodup)
    (hi : HistInv g st) (hn : HistNodup st.hist) :
    HistInv g (add_players choose g count cap nominated players newCnt st).2.2 ∧
      HistNodup
        ((add_players choose g count cap nominated players newCnt st).2.2).hist := by
  unfold add_players
  refine drainAll_histinv choose g count cap _ players newCnt st ?_ ?_ hi hn
  · intro p hp
    exact hfresh p (add_players_groups_sub cap st.hist _ _ p hp)
  · exact add_players_groups_nodup cap st.hist nominated hnd _
      (sortNat_nodup _ (List.nodup_dedup _))

theorem quotaLoop_histinv (choose : Nat → List Player → Nat) (g : GameE)
    (count cap : Nat) :
    ∀ (fuel : Nat) (players : List Player) (newCnt : Nat) (st : St)
      (plF : List Player) (nF : Nat) (stF : St),
      quotaLoop choose g count cap fuel players newCnt st = some (plF, nF, stF) →
      (players.map Player.name).Nodup →
      HistInv g st → HistNodup st.hist →
      HistInv g stF ∧ HistNodup stF.hist
  | 0, players, newCnt, st, plF, nF, stF, h => by simp [quotaLoop] at h
  | fuel + 1, players, newCnt, st, plF, nF, stF, h => by
    rw [quotaLoop] at h
    split at h
    · dsimp only at h
      intro hnd hi hn
      have hchs : List.Sublist
          (chosenSubset st.hist g
            (narrowTK st.roster.length (candidatesOf st.hist st.roster players)))
          players :=
        chosen_sublist_players st.hist g st.roster st.roster.length players
      have h1 := add_players_histinv choose g count cap
        (chosenSubset st.hist g
          (narrowTK st.roster.length (candidatesOf st.hist st.roster players)))
        players newCnt st
        (fun p hp => chosen_not_rostered st.hist g st.roster st.roster.length
          players p hp)
        (hnd.sublist (hchs.map Player.name)) hi hn
      exact quotaLoop_histinv choose g count cap fuel _ _ _ plF nF stF h
        (hnd.sublist ((add_players_players_sublist choose g count cap _ players
          newCnt st).map Player.name)) h1.1 h1.2
    · simp only [Option.some.injEq, Prod.mk.injEq] at h
      obtain ⟨-, -, rfl⟩ := h
      exact fun _ hi hn => ⟨hi, hn⟩

theorem setupQuotas_histinv (choose : Nat → List Player → Nat) (fuel : Nat)
    (pools : List (String × List Player)) (unavail : String → List String)
    (g : GameE) (cap : Nat) :
    ∀ (pcs : List (String × Nat)) (st : St) (stF : St),
      setupQuotas choose fuel pools unavail g cap pcs st = some (.ok stF) →
      HistInv g st → HistNodup st.hist →
      HistInv g stF ∧ HistNodup stF.hist
  | [], st, stF, h => by
    simp only [setupQuotas, Option.some.injEq, Except.ok.injEq] at h
    subst h
    exact fun hi hn => ⟨hi, hn⟩
  | (poolName, count) :: rest, st, stF, h => by
    rw [setupQuotas] at h
    split at h
    · simp at h
    · dsimp only at h
      split at h
      · simp at h
      · next plF nF stMid heq =>
        intro hi hn
        have h1 := quotaLoop_histinv choose g count cap fuel _ 0 st plF nF
          stMid heq (avail_names_nodup _ unavail g) hi hn
        exact setupQuotas_histinv choose fuel pools unavail g cap rest _ stF h
          h1.1 h1.2

theorem runGames_c8 (choose : Nat → List Player → Nat) (fuel : Nat)
    (pools : List (String × List Player)) (unavail : String → List String) :
    ∀ (gs : List (GameE × List String)) (s : RunSt) (sF : RunSt),
      runGames choose fuel pools unavail gs s = .ok sF →
      ((gs.map (fun x => x.1.gid)).Nodup) →
      (∀ (q : Player) (gm : GameE), gm ∈ s.hist q →
        gm.gid ∉ gs.map (fun x => x.1.gid)) →
      HistNodup s.hist →
      HistNodup sF.hist ∧ ∀ d ∈ sF.done, d ∈ s.done ∨ d.roster.Nodup
  | [], s, sF, h, _, _, hn => by
    simp only [runGames, RunOut.ok.injEq] at h
    subst h
    exact ⟨hn, fun d hd => Or.inl hd⟩
  | (g, pre) :: rest, s, sF, h, hgid, hfresh, hn => by
    rw [runGames] at h
    split at h
    · exact absurd h (by simp)
    · exact absurd h (by simp)
    · next stF heq =>
      obtain ⟨pcs, cap, hpcs, hcap, hsq⟩ :=
        setup_ok_elim choose fuel pools unavail g _ stF heq
      have hi0 : HistInv g ⟨initRoster pre, s.hist, s.ctr, []⟩ := by
        intro q hq
        exfalso
        rcases List.mem_map.1 hq with ⟨gm, hgm, hgmg⟩
        exact hfresh q gm hgm (hgmg ▸ List.mem_map_of_mem _
          (List.mem_cons_self _ _))
      have h1 := setupQuotas_histinv choose fuel pools unavail g cap pcs _ stF
        hsq hi0 hn
      have hndrest : ((rest.map (fun x => x.1.gid)).Nodup) := by
        rw [List.map_cons, List.nodup_cons] at hgid
        exact hgid.2
      have hheadgid : g.gid ∉ rest.map (fun x => x.1.gid) := by
        rw [List.map_cons, List.nodup_cons] at hgid
        exact hgid.1
      have hfresh2 : ∀ (q : Player) (gm : GameE), gm ∈ stF.hist q →
          gm.gid ∉ rest.map (fun x => x.1.gid) := by
        intro q gm hgm hmem
        rcases setupQuotas_hist_sub choose fuel pools unavail g cap pcs _ stF
          hsq q gm hgm with h' | rfl
        · refine hfresh q gm h' ?_
          rw [List.map_cons]
          exact List.mem_cons_of_mem _ hmem
        · exact hheadgid hmem
      have hrec := runGames_c8 choose fuel pools unavail rest _ sF h hndrest
        hfresh2 h1.2
      refine ⟨hrec.1, ?_⟩
      intro d hd
      rcases hrec.2 d hd with h' | h'
      · rcases List.mem_append.1 h' with h'' | h''
        · exact Or.inl h''
        · rcases List.mem_singleton.1 h'' with rfl
          refine Or.inr ?_
          exact setupQuotas_roster_nodup choose fuel pools unavail g cap pcs _
            stF hsq (initRoster_nodup pre)
      · exact Or.inr h'

/-- C8: after every completed allocation run over events with pairwise
distinct identities, no individual occurs twice in any event's roster, and
no event occurs twice in any individual object's history. -/
theorem C8_thm (choose : Nat → List Player → Nat) (fuel : Nat)
    (pools : List (String × List Player)) (unavail : String → List String)
    (gs : List (GameE × List String)) (sF : RunSt)
    (hok : runAll choose fuel pools unavail gs = .ok sF)
    (hgid : (gs.map (fun x => x.1.gid)).Nodup) :
    (∀ d ∈ sF.done, d.roster.Nodup) ∧
      ∀ q : Player, ((sF.hist q).map GameE.gid).Nodup := by
  have h := runGames_c8 choose fuel pools unavail gs ⟨[], fun _ => [], 0⟩ sF hok
    hgid (by intro q gm hgm; cases hgm) (by intro q; exact List.nodup_nil)
  refine ⟨?_, h.1⟩
  intro d hd
  rcases h.2 d hd with h' | h'
  · cases h'
  · exact h'

/-- Witness for C8: the no-duplicates theorem applied to a concrete
completed run. -/
theorem C8_witness :
    ∃ sF, runAll chooseZ 100 poolsStd noUnav [(g13, [])] = RunOut.ok sF ∧
      (∀ d ∈ sF.done, d.roster.Nodup) ∧
      ∀ q : Player, ((sF.hist q).map GameE.gid).Nodup := by
  cases hrun : runAll chooseZ 100 poolsStd noUnav [(g13, [])] with
  | ok sF =>
    exact ⟨sF, rfl, C8_thm chooseZ 100 poolsStd noUnav _ sF hrun (by decide)⟩
  | err m s =>
    exfalso
    have h0 : outKind (runAll chooseZ 100 poolsStd noUnav [(g13, [])]) = 0 := by
      decide
    rw [hrun] at h0
    simp [outKind] at h0
  | spin =>
    exfalso
    have h0 : outKind (runAll chooseZ 100 poolsStd noUnav [(g13, [])]) = 0 := by
      decide
    rw [hrun] at h0
    simp [outKind] at h0

theorem drain_hist_no_g (choose : Nat → List Player → Nat) (g : GameE)
    (count cap : Nat) :
    ∀ (fuel : Nat) (group players : List Player) (newCnt : Nat) (st : St)
      (q : Player),
      g ∉ ((drain choose g count cap fuel group players newCnt st).2.2).hist q →
      ((drain choose g count cap fuel group players newCnt st).2.2).hist q =
        st.hist q
  | 0, _, _, _, _, _, _ => rfl
  | fuel + 1, group, players, newCnt, st, q, h => by
    rw [drain] at h ⊢
    by_cases hcond : newCnt ≠ count ∧ st.roster.length ≠ cap ∧ group ≠ []
    · rw [if_pos hcond] at h ⊢
      dsimp only at h ⊢
      set p := group.getD (choose st.ctr group % group.length) (Player.mk "" "")
        with hp
      by_cases hqp : q = p
      · subst hqp
        exfalso
        refine h (drain_hist_mono choose g count cap fuel
          (eraseByName group p.name) (eraseByName players p.name) (newCnt + 1)
          { roster := rosterAdd st.roster p.name, hist := histAppend st.hist p g
            ctr := st.ctr + 1, log := st.log } p g ?_)
        show g ∈ histAppend st.hist p g p
        rw [histAppend_self]
        exact List.mem_append_right _ (List.mem_singleton.2 rfl)
      · have hrec := drain_hist_no_g choose g count cap fuel
          (eraseByName group p.name) (eraseByName players p.name) (newCnt + 1)
          { roster := rosterAdd st.roster p.name, hist := histAppend st.hist p g
            ctr := st.ctr + 1, log := st.log } q h
        rw [hrec]
        exact histAppend_ne st.hist p q g hqp
    · rw [if_neg hcond]

theorem drain_hist_len_mono (choose : Nat → List Player → Nat) (g : GameE)
    (count cap : Nat) :
    ∀ (fuel : Nat) (group players : List Player) (newCnt : Nat) (st : St)
      (q : Player),
      (st.hist q).length ≤
        (((drain choose g count cap fuel group players newCnt st).2.2).hist q).length
  | 0, _, _, _, _, _ => Nat.le_refl _
  | fuel + 1, group, players, newCnt, st, q => by
    rw [drain]
    split
    · dsimp only
      set p := group.getD (choose st.ctr group % group.length) (Player.mk "" "")
        with hp
      have hrec := drain_hist_len_mono choose g count cap fuel
        (eraseByName group p.name) (eraseByName players p.name) (newCnt + 1)
        { roster := rosterAdd st.roster p.name, hist := histAppend st.hist p g
          ctr := st.ctr + 1, log := st.log } q
      refine Nat.le_trans ?_ hrec
      show (st.hist q).length ≤ (histAppend st.hist p g q).length
      by_cases hqp : q = p
      · subst hqp
        rw [histAppend_self, List.length_append]
        omega
      · rw [histAppend_ne st.hist p q g hqp]
    · exact Nat.le_refl _

theorem not_mem_eraseByName_self (l : List Player) (x : Player)
    (hnd : (l.map Player.name).Nodup) : x ∉ eraseByName l x.name :=
  fun hmem => eraseByName_names_ne l x.name hnd x hmem rfl

theorem preCnt_append_self (h : Hist) (x : Player) (g : GameE) (hg : g ∉ h x) :
    preCnt g (histAppend h x g) x = (h x).length := by
  unfold preCnt
  rw [histAppend_self, List.length_append]
  rw [if_pos (List.mem_append_right _ (List.mem_singleton.2 rfl))]
  simp

theorem preCnt_of_not_mem (h : Hist) (x : Player) (g : GameE) (hg : g ∉ h x) :
    preCnt g h x = (h x).length := by
  unfold preCnt
  rw [if_neg hg]
  omega

theorem preCnt_ne (h : Hist) (p q : Player) (g : GameE) (hqp : q ≠ p) :
    preCnt g (histAppend h p g) q = preCnt g h q := by
  unfold preCnt
  rw [histAppend_ne h p q g hqp]

/-- `CInv` yields the games-count fairness bound. -/
theorem CInv_diff (g : GameE) (x y : Player) (st : St) (h : CInv g x y st) :
    (st.hist x).length ≤ (st.hist y).length + 1 ∧
      (st.hist y).length ≤ (st.hist x).length + 1 := by
  obtain ⟨h1, h2, h3, h4, h5, h6⟩ := h
  unfold preCnt at h3 h4 h5 h6
  by_cases hx : g ∈ st.hist x
  · have hx1 : 1 ≤ (st.hist x).length :=
      List.length_pos.2 (List.ne_nil_of_mem hx)
    by_cases hy : g ∈ st.hist y
    · have hy1 : 1 ≤ (st.hist y).length :=
        List.length_pos.2 (List.ne_nil_of_mem hy)
      rw [if_pos hx, if_pos hy] at h3 h4
      omega
    · rw [if_pos hx, if_neg hy] at h3 h4 h5
      have h5' := h5 hx hy
      omega
  · by_cases hy : g ∈ st.hist y
    · have hy1 : 1 ≤ (st.hist y).length :=
        List.length_pos.2 (List.ne_nil_of_mem hy)
      rw [if_neg hx, if_pos hy] at h3 h4 h6
      have h6' := h6 hy hx
      omega
    · rw [if_neg hx, if_neg hy] at h3 h4
      omega

theorem mem_rosterAdd_ne_iff (r : List String) (n m : String) (h : m ≠ n) :
    m ∈ rosterAdd r n ↔ m ∈ r :=
  ⟨fun hm => ((mem_rosterAdd_iff r n m).1 hm).resolve_left h,
    mem_rosterAdd_of_mem r n m⟩

theorem drain_c3 (choose : Nat → List Player → Nat) (g : GameE) (count cap : Nat)
    (x y : Player) (hxy : x.name ≠ y.name) :
    ∀ (fuel : Nat) (group players : List Player) (newCnt : Nat) (st : St),
      (∀ p ∈ group, p.name ∉ st.roster) →
      ((group.map Player.name).Nodup) →
      (∀ p ∈ group, p.name = x.name → p = x) →
      (∀ p ∈ group, p.name = y.name → p = y) →
      (g ∉ st.hist x → x ∈ group →
        ((st.hist x).length ≤ (st.hist y).length ∨ g ∈ st.hist y)) →
      (g ∉ st.hist y → y ∈ group →
        ((st.hist y).length ≤ (st.hist x).length ∨ g ∈ st.hist x)) →
      ((players.map Player.name).Nodup) →
      (x ∈ players ↔ g ∉ st.hist x) →
      (y ∈ players ↔ g ∉ st.hist y) →
      CInv g x y st →
      CInv g x y (drain choose g count cap fuel group players newCnt st).2.2 ∧
        (x ∈ (drain choose g count cap fuel group players newCnt st).1 ↔
          g ∉ ((drain choose g count cap fuel group players newCnt st).2.2).hist x) ∧
        (y ∈ (drain choose g count cap fuel group players newCnt st).1 ↔
          g ∉ ((drain choose g count cap fuel group players newCnt st).2.2).hist y)
  | 0, group, players, newCnt, st, _, _, _, _, _, _, _, hQx, hQy, hInv =>
    ⟨hInv, hQx, hQy⟩
  | fuel + 1, group, players, newCnt, st, hGfresh, hGnd, hGx, hGy, hSafeX,
      hSafeY, hPnd, hQx, hQy, hInv => by
    obtain ⟨hJ1x, hJ1y, hle1, hle2, himp1, himp2⟩ := hInv
    have hyne : y ≠ x := fun he => hxy (by rw [he])
    have hxne : x ≠ y := fun he => hxy (by rw [he])
    rw [drain]
    by_cases hcond : newCnt ≠ count ∧ st.roster.length ≠ cap ∧ group ≠ []
    · rw [if_pos hcond]
      dsimp only
      set p := group.getD (choose st.ctr group % group.length) (Player.mk "" "")
        with hpdef
      have hpm : p ∈ group := pick_mem group _ hcond.2.2
      have hpfresh : p.name ∉ st.roster := hGfresh p hpm
      have hGfresh2 : ∀ q ∈ eraseByName group p.name,
          q.name ∉ rosterAdd st.roster p.name := by
        intro q hq hmem
        rcases (mem_rosterAdd_iff _ _ _).1 hmem with hqe | hr
        · exact eraseByName_names_ne group p.name hGnd q hq hqe
        · exact hGfresh q ((eraseByName_sublist group _).subset hq) hr
      have hGnd2 : ((eraseByName group p.name).map Player.name).Nodup :=
        hGnd.sublist ((eraseByName_sublist group _).map Player.name)
      have hGx2 : ∀ q ∈ eraseByName group p.name, q.name = x.name → q = x :=
        fun q hq => hGx q ((eraseByName_sublist group _).subset hq)
      have hGy2 : ∀ q ∈ eraseByName group p.name, q.name = y.name → q = y :=
        fun q hq => hGy q ((eraseByName_sublist group _).subset hq)
      have hPnd2 : ((eraseByName players p.name).map Player.name).Nodup :=
        hPnd.sublist ((eraseByName_sublist players _).map Player.name)
      by_cases hpeqx : p = x
      · subst hpeqx
        have hnpx : g ∉ st.hist p := fun hg => hpfresh (hJ1x.2 hg)
        have hsafe := hSafeX hnpx hpm
        have hpx2 : g ∈ histAppend st.hist p g p := by
          rw [histAppend_self]
          exact List.mem_append_right _ (List.mem_singleton.2 rfl)
        have hhy : histAppend st.hist p g y = st.hist y :=
          histAppend_ne st.hist p y g hyne
        have hInv2 : CInv g p y
            { roster := rosterAdd st.roster p.name
              hist := histAppend st.hist p g
              ctr := st.ctr + 1
              log := st.log } := by
          refine ⟨?_, ?_, ?_, ?_, ?_, ?_⟩
          · show p.name ∈ rosterAdd st.roster p.name ↔
              g ∈ histAppend st.hist p g p
            exact iff_of_true (mem_rosterAdd_self _ _) hpx2
          · show y.name ∈ rosterAdd st.roster p.name ↔
              g ∈ histAppend st.hist p g y
            rw [hhy, mem_rosterAdd_ne_iff st.roster p.name y.name
              (fun he => hxy he.symm)]
            exact hJ1y
          · show preCnt g (histAppend st.hist p g) p ≤
              preCnt g (histAppend st.hist p g) y + 1
            rw [preCnt_append_self st.hist p g hnpx, preCnt_ne st.hist p y g hyne]
            rw [preCnt_of_not_mem st.hist p g hnpx] at hle1
            exact hle1
          · show preCnt g (histAppend st.hist p g) y ≤
              preCnt g (histAppend st.hist p g) p + 1
            rw [preCnt_append_self st.hist p g hnpx, preCnt_ne st.hist p y g hyne]
            rw [preCnt_of_not_mem st.hist p g hnpx] at hle2
            exact hle2
          · intro _ hny
            have hny2 : g ∉ st.hist y := by
              have h0 : g ∉ histAppend st.hist p g y := hny
              rwa [hhy] at h0
            show preCnt g (histAppend st.hist p g) p ≤
              preCnt g (histAppend st.hist p g) y
            rw [preCnt_append_self st.hist p g hnpx, preCnt_ne st.hist p y g hyne]
            rcases hsafe with hs | hs
            · rw [preCnt_of_not_mem st.hist y g hny2]
              exact hs
            · exact absurd hs hny2
          · intro _ hgp
            exact absurd hpx2 hgp
        have hQx2 : p ∈ eraseByName players p.name ↔
            g ∉ histAppend st.hist p g p :=
          iff_of_false (not_mem_eraseByName_self players p hPnd)
            (fun h => h hpx2)
        have hQy2 : y ∈ eraseByName players p.name ↔
            g ∉ histAppend st.hist p g y := by
          rw [hhy]
          constructor
          · intro hmem
            exact hQy.1 ((eraseByName_sublist players _).subset hmem)
          · intro hny
            exact mem_eraseByName_of_ne players p.name y
              (fun he => hxy he.symm) (hQy.2 hny)
        have hSafeX2 : g ∉ histAppend st.hist p g p →
            p ∈ eraseByName group p.name →
            ((histAppend st.hist p g p).length ≤
              (histAppend st.hist p g y).length ∨ g ∈ histAppend st.hist p g y) :=
          fun hg _ => absurd hpx2 hg
        have hSafeY2 : g ∉ histAppend st.hist p g y →
            y ∈ eraseByName group p.name →
            ((histAppend st.hist p g y).length ≤
              (histAppend st.hist p g p).length ∨ g ∈ histAppend st.hist p g p) :=
          fun _ _ => Or.inr hpx2
        exact drain_c3 choose g count cap p y hxy fuel _ _ _ _ hGfresh2 hGnd2
          hGx2 hGy2 hSafeX2 hSafeY2 hPnd2 hQx2 hQy2 hInv2
      · by_cases hpeqy : p = y
        · subst hpeqy
          have hnpy : g ∉ st.hist p := fun hg => hpfresh (hJ1y.2 hg)
          have hsafe := hSafeY hnpy hpm
          have hpy2 : g ∈ histAppend st.hist p g p := by
            rw [histAppend_self]
            exact List.mem_append_right _ (List.mem_singleton.2 rfl)
          have hhx : histAppend st.hist p g x = st.hist x :=
            histAppend_ne st.hist p x g hxne
          have hInv2 : CInv g x p
              { roster := rosterAdd st.roster p.name
                hist := histAppend st.hist p g
                ctr := st.ctr + 1
                log := st.log } := by
            refine ⟨?_, ?_, ?_, ?_, ?_, ?_⟩
            · show x.name ∈ rosterAdd st.roster p.name ↔
                g ∈ histAppend st.hist p g x
              rw [hhx, mem_rosterAdd_ne_iff st.roster p.name x.name hxy]
              exact hJ1x
            · show p.name ∈ rosterAdd st.roster p.name ↔
                g ∈ histAppend st.hist p g p
              exact iff_of_true (mem_rosterAdd_self _ _) hpy2
            · show preCnt g (histAppend st.hist p g) x ≤
                preCnt g (histAppend st.hist p g) p + 1
              rw [preCnt_append_self st.hist p g hnpy, preCnt_ne st.hist p x g hxne]
              rw [preCnt_of_not_mem st.hist p g hnpy] at hle1
              exact hle1
            · show preCnt g (histAppend st.hist p g) p ≤
                preCnt g (histAppend st.hist p g) x + 1
              rw [preCnt_append_self st.hist p g hnpy, preCnt_ne st.hist p x g hxne]
              rw [preCnt_of_not_mem st.hist p g hnpy] at hle2
              exact hle2
            · intro _ hgp
              exact absurd hpy2 hgp
            · intro _ hnx
              have hnx2 : g ∉ st.hist x := by
                have h0 : g ∉ histAppend st.hist p g x := hnx
                rwa [hhx] at h0
              show preCnt g (histAppend st.hist p g) p ≤
                preCnt g (histAppend st.hist p g) x
              rw [preCnt_append_self st.hist p g hnpy, preCnt_ne st.hist p x g hxne]
              rcases hsafe with hs | hs
              · rw [preCnt_of_not_mem st.hist x g hnx2]
                exact hs
              · exact absurd hs hnx2
          have hQy2 : p ∈ eraseByName players p.name ↔
              g ∉ histAppend st.hist p g p :=
            iff_of_false (not_mem_eraseByName_self players p hPnd)
              (fun h => h hpy2)
          have hQx2 : x ∈ eraseByName players p.name ↔
              g ∉ histAppend st.hist p g x := by
            rw [hhx]
            constructor
            · intro hmem
              exact hQx.1 ((eraseByName_sublist players _).subset hmem)
            · intro hnx
              exact mem_eraseByName_of_ne players p.name x hxy (hQx.2 hnx)
          have hSafeY2 : g ∉ histAppend st.hist p g p →
              p ∈ eraseByName group p.name →
              ((histAppend st.hist p g p).length ≤
                (histAppend st.hist p g x).length ∨
                g ∈ histAppend st.hist p g x) :=
            fun hg _ => absurd hpy2 hg
          have hSafeX2 : g ∉ histAppend st.hist p g x →
              x ∈ eraseByName group p.name →
              ((histAppend st.hist p g x).length ≤
                (histAppend st.hist p g p).length ∨
                g ∈ histAppend st.hist p g p) :=
            fun _ _ => Or.inr hpy2
          exact drain_c3 choose g count cap x p hxy fuel _ _ _ _ hGfresh2 hGnd2
            hGx2 hGy2 hSafeX2 hSafeY2 hPnd2 hQx2 hQy2 hInv2
        · have hpnx : p.name ≠ x.name := fun he => hpeqx (hGx p hpm he)
          have hpny : p.name ≠ y.name := fun he => hpeqy (hGy p hpm he)
          have hhx : histAppend st.hist p g x = st.hist x :=
            histAppend_ne st.hist p x g (fun he => hpnx (by rw [he]))
          have hhy : histAppend st.hist p g y = st.hist y :=
            histAppend_ne st.hist p y g (fun he => hpny (by rw [he]))
          have hInv2 : CInv g x y
              { roster := rosterAdd st.roster p.name
                hist := histAppend st.hist p g
                ctr := st.ctr + 1
                log := st.log } := by
            refine ⟨?_, ?_, ?_, ?_, ?_, ?_⟩
            · show x.name ∈ rosterAdd st.roster p.name ↔
                g ∈ histAppend st.hist p g x
              rw [hhx, mem_rosterAdd_ne_iff st.roster p.name x.name
                (fun he => hpnx he.symm)]
              exact hJ1x
            · show y.name ∈ rosterAdd st.roster p.name ↔
                g ∈ histAppend st.hist p g y
              rw [hhy, mem_rosterAdd_ne_iff st.roster p.name y.name
                (fun he => hpny he.symm)]
              exact hJ1y
            · show preCnt g (histAppend st.hist p g) x ≤
                preCnt g (histAppend st.hist p g) y + 1
              rw [preCnt_ne st.hist p x g (fun he => hpnx (by rw [he])),
                preCnt_ne st.hist p y g (fun he => hpny (by rw [he]))]
              exact hle1
            · show preCnt g (histAppend st.hist p g) y ≤
                preCnt g (histAppend st.hist p g) x + 1
              rw [preCnt_ne st.hist p x g (fun he => hpnx (by rw [he])),
                preCnt_ne st.hist p y g (fun he => hpny (by rw [he]))]
              exact hle2
            · intro hgx hny
              have hgx2 : g ∈ st.hist x := by
                have h0 : g ∈ histAppend st.hist p g x := hgx
                rwa [hhx] at h0
              have hny2 : g ∉ st.hist y := by
                have h0 : g ∉ histAppend st.hist p g y := hny
                rwa [hhy] at h0
              show preCnt g (histAppend st.hist p g) x ≤
                preCnt g (histAppend st.hist p g) y
              rw [preCnt_ne st.hist p x g (fun he => hpnx (by rw [he])),
                preCnt_ne st.hist p y g (fun he => hpny (by rw [he]))]
              exact himp1 hgx2 hny2
            · intro hgy hnx
              have hgy2 : g ∈ st.hist y := by
                have h0 : g ∈ histAppend st.hist p g y := hgy
                rwa [hhy] at h0
              have hnx2 : g ∉ st.hist x := by
                have h0 : g ∉ histAppend st.hist p g x := hnx
                rwa [hhx] at h0
              show preCnt g (histAppend st.hist p g) y ≤
                preCnt g (histAppend st.hist p g) x
              rw [preCnt_ne st.hist p x g (fun he => hpnx (by rw [he])),
                preCnt_ne st.hist p y g (fun he => hpny (by rw [he]))]
              exact himp2 hgy2 hnx2
          have hQx2 : x ∈ eraseByName players p.name ↔
              g ∉ histAppend st.hist p g x := by
            rw [hhx]
            constructor
            · intro hmem
              exact hQx.1 ((eraseByName_sublist players _).subset hmem)
            · intro hnx
              exact mem_eraseByName_of_ne players p.name x
                (fun he => hpnx he.symm) (hQx.2 hnx)
          have hQy2 : y ∈ eraseByName players p.name ↔
              g ∉ histAppend st.hist p g y := by
            rw [hhy]
            constructor
            · intro hmem
              exact hQy.1 ((eraseByName_sublist players _).subset hmem)
            · intro hny
              exact mem_eraseByName_of_ne players p.name y
                (fun he => hpny he.symm) (hQy.2 hny)
          have hSafeX2 : g ∉ histAppend st.hist p g x →
              x ∈ eraseByName group p.name →
              ((histAppend st.hist p g x).length ≤
                (histAppend st.hist p g y).length ∨
                g ∈ histAppend st.hist p g y) := by
            intro hgx hxg
            rw [hhx, hhy]
            exact hSafeX (hhx ▸ hgx) ((eraseByName_sublist group _).subset hxg)
          have hSafeY2 : g ∉ histAppend st.hist p g y →
              y ∈ eraseByName group p.name →
              ((histAppend st.hist p g y).length ≤
                (histAppend st.hist p g x).length ∨
                g ∈ histAppend st.hist p g x) := by
            intro hgy hyg
            rw [hhx, hhy]
            exact hSafeY (hhy ▸ hgy) ((eraseByName_sublist group _).subset hyg)
          exact drain_c3 choose g count cap x y hxy fuel _ _ _ _ hGfresh2 hGnd2
            hGx2 hGy2 hSafeX2 hSafeY2 hPnd2 hQx2 hQy2 hInv2
    · rw [if_neg hcond]
      exact ⟨⟨hJ1x, hJ1y, hle1, hle2, himp1, himp2⟩, hQx, hQy⟩

theorem drainAll_c3 (choose : Nat → List Player → Nat) (g : GameE)
    (count cap : Nat) (x y : Player) (hxy : x.name ≠ y.name) :
    ∀ (groups : List (List Player)) (players : List Player) (newCnt : Nat)
      (st : St),
      (∀ p ∈ groups.flatten, p.name ∉ st.roster) →
      ((groups.flatten.map Player.name).Nodup) →
      (∀ p ∈ groups.flatten, p.name = x.name → p = x) →
      (∀ p ∈ groups.flatten, p.name = y.name → p = y) →
      (g ∉ st.hist x → x ∈ groups.flatten →
        ((st.hist x).length ≤ (st.hist y).length ∨ g ∈ st.hist y)) →
      (g ∉ st.hist y → y ∈ groups.flatten →
        ((st.hist y).length ≤ (st.hist x).length ∨ g ∈ st.hist x)) →
      ((players.map Player.name).Nodup) →
      (x ∈ players ↔ g ∉ st.hist x) →
      (y ∈ players ↔ g ∉ st.hist y) →
      CInv g x y st →
      CInv g x y (drainAll choose g count cap groups players newCnt st).2.2 ∧
        (x ∈ (drainAll choose g count cap groups players newCnt st).1 ↔
          g ∉ ((drainAll choose g count cap groups players newCnt st).2.2).hist x) ∧
        (y ∈ (drainAll choose g count cap groups players newCnt st).1 ↔
          g ∉ ((drainAll choose g count cap groups players newCnt st).2.2).hist y)
  | [], players, newCnt, st, _, _, _, _, _, _, _, hQx, hQy, hInv =>
    ⟨hInv, hQx, hQy⟩
  | grp :: rest, players, newCnt, st, hfresh, hnd, hGx, hGy, hSafeX, hSafeY,
      hPnd, hQx, hQy, hInv => by
    rw [drainAll]
    have hjoin : ∀ p ∈ grp, p ∈ (grp :: rest).flatten := fun p hp =>
      List.mem_flatten.2 ⟨grp, List.mem_cons_self _ _, hp⟩
    have hjoin2 : ∀ p ∈ rest.flatten, p ∈ (grp :: rest).flatten := by
      intro p hp
      rcases List.mem_flatten.1 hp with ⟨l, hl, hpl⟩
      exact List.mem_flatten.2 ⟨l, List.mem_cons_of_mem _ hl, hpl⟩
    have hflat_eq : (grp :: rest).flatten = grp ++ rest.flatten := by
      simp [List.flatten_cons]
    have hndflat := hnd
    rw [hflat_eq, List.map_append, List.nodup_append] at hndflat
    have h1 := drain_c3 choose g count cap x y hxy grp.length grp players newCnt
      st (fun p hp => hfresh p (hjoin p hp)) hndflat.1
      (fun p hp => hGx p (hjoin p hp)) (fun p hp => hGy p (hjoin p hp))
      (fun hg hx => hSafeX hg (hjoin x hx)) (fun hg hy => hSafeY hg (hjoin y hy))
      hPnd hQx hQy hInv
    set r := drain choose g count cap grp.length grp players newCnt st with hr
    have hfresh2 : ∀ p ∈ rest.flatten, p.name ∉ r.2.2.roster := by
      intro p hp hmem
      rcases drain_roster_new choose g count cap grp.length grp players newCnt
        st p.name hmem with h2 | h2
      · exact hfresh p (hjoin2 p hp) h2
      · exact hndflat.2.2 h2 (List.mem_map_of_mem _ hp)
    have hlenx := drain_hist_len_mono choose g count cap grp.length grp players
      newCnt st x
    have hleny := drain_hist_len_mono choose g count cap grp.length grp players
      newCnt st y
    have hSafeX2 : g ∉ r.2.2.hist x → x ∈ rest.flatten →
        ((r.2.2.hist x).length ≤ (r.2.2.hist y).length ∨ g ∈ r.2.2.hist y) := by
      intro hg hx
      have hhx : r.2.2.hist x = st.hist x :=
        drain_hist_no_g choose g count cap grp.length grp players newCnt st x hg
      rcases hSafeX (hhx ▸ hg) (hjoin2 x hx) with hs | hs
      · refine Or.inl ?_
        rw [hhx]
        exact hs.trans hleny
      · exact Or.inr (drain_hist_mono choose g count cap grp.length grp players
          newCnt st y g hs)
    have hSafeY2 : g ∉ r.2.2.hist y → y ∈ rest.flatten →
        ((r.2.2.hist y).length ≤ (r.2.2.hist x).length ∨ g ∈ r.2.2.hist x) := by
      intro hg hy
      have hhy : r.2.2.hist y = st.hist y :=
        drain_hist_no_g choose g count cap grp.length grp players newCnt st y hg
      rcases hSafeY (hhy ▸ hg) (hjoin2 y hy) with hs | hs
      · refine Or.inl ?_
        rw [hhy]
        exact hs.trans hlenx
      · exact Or.inr (drain_hist_mono choose g count cap grp.length grp players
          newCnt st x g hs)
    have hPnd2 : ((r.1).map Player.name).Nodup :=
      hPnd.sublist ((drain_players_sublist choose g count cap grp.length grp
        players newCnt st).map Player.name)
    exact drainAll_c3 choose g count cap x y hxy rest r.1 r.2.1 r.2.2 hfresh2
      hndflat.2.1 (fun p hp => hGx p (hjoin2 p hp))
      (fun p hp => hGy p (hjoin2 p hp)) hSafeX2 hSafeY2 hPnd2 h1.2.1 h1.2.2 h1.1

theorem add_players_c3 (choose : Nat → List Player → Nat) (g : GameE)
    (count cap : Nat) (x y : Player) (hxy : x.name ≠ y.name)
    (nominated players : List Player) (newCnt : Nat) (st : St)
    (hfresh : ∀ p ∈ nominated, p.name ∉ st.roster)
    (hnd : (nominated.map Player.name).Nodup)
    (hGx : ∀ p ∈ nominated, p.name = x.name → p = x)
    (hGy : ∀ p ∈ nominated, p.name = y.name → p = y)
    (hSafeX : g ∉ st.hist x → x ∈ nominated →
      ((st.hist x).length ≤ (st.hist y).length ∨ g ∈ st.hist y))
    (hSafeY : g ∉ st.hist y → y ∈ nominated →
      ((st.hist y).length ≤ (st.hist x).length ∨ g ∈ st.hist x))
    (hPnd : (players.map Player.name).Nodup)
    (hQx : x ∈ players ↔ g ∉ st.hist x)
    (hQy : y ∈ players ↔ g ∉ st.hist y)
    (hInv : CInv g x y st) :
    CInv g x y (add_players choose g count cap nominated players newCnt st).2.2 ∧
      (x ∈ (add_players choose g count cap nominated players newCnt st).1 ↔
        g ∉ ((add_players choose g count cap nominated players newCnt st).2.2).hist x) ∧
      (y ∈ (add_players choose g count cap nominated players newCnt st).1 ↔
        g ∉ ((add_players choose g count cap nominated players newCnt st).2.2).hist y) := by
  unfold add_players
  refine drainAll_c3 choose g count cap x y hxy _ players newCnt st ?_ ?_ ?_ ?_
    ?_ ?_ hPnd hQx hQy hInv
  · intro p hp
    exact hfresh p (add_players_groups_sub cap st.hist _ _ p hp)
  · exact add_players_groups_nodup cap st.hist nominated hnd _
      (sortNat_nodup _ (List.nodup_dedup _))
  · intro p hp
    exact hGx p (add_players_groups_sub cap st.hist _ _ p hp)
  · intro p hp
    exact hGy p (add_players_groups_sub cap st.hist _ _ p hp)
  · intro hg hx
    exact hSafeX hg (add_players_groups_sub cap st.hist _ _ x hx)
  · intro hg hy
    exact hSafeY hg (add_players_groups_sub cap st.hist _ _ y hy)

theorem quotaLoop_c3 (choose : Nat → List Player → Nat) (g : GameE)
    (count cap : Nat) (x y : Player) (hxy : x.name ≠ y.name) :
    ∀ (fuel : Nat) (players : List Player) (newCnt : Nat) (st : St)
      (plF : List Player) (nF : Nat) (stF : St),
      quotaLoop choose g count cap fuel players newCnt st = some (plF, nF, stF) →
      ((players.map Player.name).Nodup) →
      (∀ p ∈ players, p.name = x.name → p = x) →
      (∀ p ∈ players, p.name = y.name → p = y) →
      (x ∈ players ↔ g ∉ st.hist x) →
      (y ∈ players ↔ g ∉ st.hist y) →
      CInv g x y st →
      CInv g x y stF
  | 0, players, newCnt, st, plF, nF, stF, h => by simp [quotaLoop] at h
  | fuel + 1, players, newCnt, st, plF, nF, stF, h => by
    rw [quotaLoop] at h
    split at h
    · dsimp only at h
      intro hPnd hPx hPy hQx hQy hInv
      set chosen := chosenSubset st.hist g
        (narrowTK st.roster.length (candidatesOf st.hist st.roster players))
        with hchosen
      have hchpl : List.Sublist chosen players :=
        chosen_sublist_players st.hist g st.roster st.roster.length players
      have hsafeX : g ∉ st.hist x → x ∈ chosen →
          ((st.hist x).length ≤ (st.hist y).length ∨ g ∈ st.hist y) := by
        intro hg hx
        by_cases hpy : g ∈ st.hist y
        · exact Or.inr hpy
        · refine Or.inl ?_
          have hymem : y ∈ players := hQy.2 hpy
          have hynotr : y.name ∉ st.roster := fun hr => hpy (hInv.2.1.1 hr)
          have hc : st.roster.contains y.name = false := by
            rw [← Bool.not_eq_true]
            intro hct
            exact hynotr ((contains_iff _ _).1 hct)
          have hyf : y ∈ players.filter
              (fun p => !(st.roster.contains p.name)) :=
            List.mem_filter.2 ⟨hymem, by rw [hc]; rfl⟩
          have hxc : x ∈ candidatesOf st.hist st.roster players :=
            (chosen_sublist_cands st.hist g st.roster.length _).subset hx
          exact gplg_min (fun p => games_count (st.hist p)) _ x hxc y hyf
      have hsafeY : g ∉ st.hist y → y ∈ chosen →
          ((st.hist y).length ≤ (st.hist x).length ∨ g ∈ st.hist x) := by
        intro hg hy
        by_cases hpx : g ∈ st.hist x
        · exact Or.inr hpx
        · refine Or.inl ?_
          have hxmem : x ∈ players := hQx.2 hpx
          have hxnotr : x.name ∉ st.roster := fun hr => hpx (hInv.1.1 hr)
          have hc : st.roster.contains x.name = false := by
            rw [← Bool.not_eq_true]
            intro hct
            exact hxnotr ((contains_iff _ _).1 hct)
          have hxf : x ∈ players.filter
              (fun p => !(st.roster.contains p.name)) :=
            List.mem_filter.2 ⟨hxmem, by rw [hc]; rfl⟩
          have hyc : y ∈ candidatesOf st.hist st.roster players :=
            (chosen_sublist_cands st.hist g st.roster.length _).subset hy
          exact gplg_min (fun p => games_count (st.hist p)) _ y hyc x hxf
      have h1 := add_players_c3 choose g count cap x y hxy chosen players newCnt
        st
        (fun p hp => chosen_not_rostered st.hist g st.roster st.roster.length
          players p hp)
        (hPnd.sublist (hchpl.map Player.name))
        (fun p hp => hPx p (hchpl.subset hp))
        (fun p hp => hPy p (hchpl.subset hp))
        hsafeX hsafeY hPnd hQx hQy hInv
      have hsub := add_players_players_sublist choose g count cap chosen players
        newCnt st
      exact quotaLoop_c3 choose g count cap x y hxy fuel _ _ _ plF nF stF h
        (hPnd.sublist (hsub.map Player.name))
        (fun p hp => hPx p (hsub.subset hp))
        (fun p hp => hPy p (hsub.subset hp))
        h1.2.1 h1.2.2 h1.1
    · simp only [Option.some.injEq, Prod.mk.injEq] at h
      obtain ⟨-, -, rfl⟩ := h
      exact fun _ _ _ _ _ hInv => hInv

theorem quotaLoop_c3_noxy (choose : Nat → List Player → Nat) (g : GameE)
    (count cap : Nat) (x y : Player) (fuel : Nat) (players : List Player)
    (newCnt : Nat) (st : St) (plF : List Player) (nF : Nat) (stF : St)
    (h : quotaLoop choose g count cap fuel players newCnt st = some (plF, nF, stF))
    (hnx : x.name ∉ players.map Player.name)
    (hny : y.name ∉ players.map Player.name)
    (hInv : CInv g x y st) :
    CInv g x y stF ∧ stF.hist x = st.hist x ∧ stF.hist y = st.hist y := by
  have hhx : stF.hist x = st.hist x :=
    quotaLoop_hist_untouched choose g count cap fuel players newCnt st plF nF
      stF h x hnx
  have hhy : stF.hist y = st.hist y :=
    quotaLoop_hist_untouched choose g count cap fuel players newCnt st plF nF
      stF h y hny
  have hrx : x.name ∈ stF.roster ↔ x.name ∈ st.roster := by
    constructor
    · intro hm
      rcases quotaLoop_roster_new choose g count cap fuel players newCnt st plF
        nF stF h x.name hm with h2 | h2
      · exact h2
      · exact absurd h2 hnx
    · exact quotaLoop_roster_mono choose g count cap fuel players newCnt st plF
        nF stF h x.name
  have hry : y.name ∈ stF.roster ↔ y.name ∈ st.roster := by
    constructor
    · intro hm
      rcases quotaLoop_roster_new choose g count cap fuel players newCnt st plF
        nF stF h y.name hm with h2 | h2
      · exact h2
      · exact absurd h2 hny
    · exact quotaLoop_roster_mono choose g count cap fuel players newCnt st plF
        nF stF h y.name
  obtain ⟨hJ1x, hJ1y, hle1, hle2, himp1, himp2⟩ := hInv
  refine ⟨⟨?_, ?_, ?_, ?_, ?_, ?_⟩, hhx, hhy⟩
  · rw [hrx, hhx]
    exact hJ1x
  · rw [hry, hhy]
    exact hJ1y
  · unfold preCnt
    rw [hhx, hhy]
    exact hle1
  · unfold preCnt
    rw [hhx, hhy]
    exact hle2
  · rw [hhx, hhy]
    unfold preCnt
    rw [hhx, hhy]
    exact himp1
  · rw [hhx, hhy]
    unfold preCnt
    rw [hhx, hhy]
    exact himp2

/-- Pool members reached through a successful registry lookup are entries of
the registry. -/
theorem lookupPool_mem (pools : List (String × List Player)) (pn : String)
    (members : List Player) (h : lookupPool pools pn = some members) :
    (pn, members) ∈ pools := by
  unfold lookupPool at h
  cases hf : pools.find? (fun e => e.1 == pn) with
  | none => rw [hf] at h; simp at h
  | some e =>
    rw [hf] at h
    simp only [Option.map_some', Option.some.injEq] at h
    have hmem := List.mem_of_find?_eq_some hf
    have hcond := List.find?_some hf
    have h1 : e.1 = pn := by simpa using hcond
    have h2 : e = (pn, members) := by
      rcases e with ⟨e1, e2⟩
      simp only at h1 h
      rw [h1, h]
    exact h2 ▸ hmem

theorem setupQuotas_c3_noxy (choose : Nat → List Player → Nat) (fuel : Nat)
    (pools : List (String × List Player)) (unavail : String → List String)
    (g : GameE) (cap : Nat) (x y : Player) :
    ∀ (pcs : List (String × Nat)) (st : St) (stF : St),
      setupQuotas choose fuel pools unavail g cap pcs st = some (.ok stF) →
      (∀ pc ∈ pcs, ∀ members, lookupPool pools pc.1 = some members →
        ∀ p ∈ members, p.name ≠ x.name ∧ p.name ≠ y.name) →
      CInv g x y st →
      CInv g x y stF ∧ stF.hist x = st.hist x ∧ stF.hist y = st.hist y
  | [], st, stF, h => by
    simp only [setupQuotas, Option.some.injEq, Except.ok.injEq] at h
    subst h
    exact fun _ hInv => ⟨hInv, rfl, rfl⟩
  | (poolName, count) :: rest, st, stF, h => by
    rw [setupQuotas] at h
    split at h
    · simp at h
    · next members hlk =>
      dsimp only at h
      split at h
      · simp at h
      · next plF nF stMid heq =>
        intro hD hInv
        have hmem : ∀ p ∈ (dedupByName members).filter
            (fun p => !((unavail p.name).contains g.key)), p ∈ members :=
          fun p hp => (dedupByName_sublist members).subset
            ((List.filter_sublist _).subset hp)
        have hnx : x.name ∉ ((dedupByName members).filter
            (fun p => !((unavail p.name).contains g.key))).map Player.name := by
          intro hm
          rcases List.mem_map.1 hm with ⟨p, hp, hpn⟩
          exact (hD (poolName, count) (List.mem_cons_self _ _) members hlk p
            (hmem p hp)).1 hpn
        have hny : y.name ∉ ((dedupByName members).filter
            (fun p => !((unavail p.name).contains g.key))).map Player.name := by
          intro hm
          rcases List.mem_map.1 hm with ⟨p, hp, hpn⟩
          exact (hD (poolName, count) (List.mem_cons_self _ _) members hlk p
            (hmem p hp)).2 hpn
        have h1 := quotaLoop_c3_noxy choose g count cap x y fuel _ 0 st plF nF
          stMid heq hnx hny hInv
        have h2 := setupQuotas_c3_noxy choose fuel pools unavail g cap x y
          rest _ stF h
          (fun pc hpc => hD pc (List.mem_cons_of_mem _ hpc)) h1.1
        refine ⟨h2.1, ?_, ?_⟩
        · rw [h2.2.1]
          exact h1.2.1
        · rw [h2.2.2]
          exact h1.2.2

/-- Quota tables list each pool name at most once. -/
theorem pool_counts_names_nodup (y : Nat) (pcs : List (String × Nat))
    (h : pool_countsOf y = some pcs) : (pcs.map Prod.fst).Nodup := by
  unfold pool_countsOf at h
  by_cases hy : (y == 2012) = true
  · rw [if_pos hy] at h
    simp only [Option.some.injEq] at h
    subst h
    decide
  · rw [if_neg hy] at h
    by_cases hy2 : (y == 2013) = true
    · rw [if_pos hy2] at h
      simp only [Option.some.injEq] at h
      subst h
      decide
    · rw [if_neg hy2] at h
      simp at h

theorem setupQuotas_c3 (choose : Nat → List Player → Nat) (fuel : Nat)
    (pools : List (String × List Player)) (unavail : String → List String)
    (g : GameE) (cap : Nat) (x y : Player) (hxy : x.name ≠ y.name)
    (P : String) (membersP : List Player)
    (hlkP : lookupPool pools P = some membersP)
    (hxm : x ∈ membersP) (hym : y ∈ membersP)
    (hmnd : (membersP.map Player.name).Nodup)
    (havx : ((unavail x.name).contains g.key) = false)
    (havy : ((unavail y.name).contains g.key) = false)
    (hOthers : ∀ e ∈ pools, e.1 ≠ P → ∀ p ∈ e.2,
      p.name ≠ x.name ∧ p.name ≠ y.name) :
    ∀ (pcs : List (String × Nat)) (st : St) (stF : St),
      setupQuotas choose fuel pools unavail g cap pcs st = some (.ok stF) →
      (pcs.map Prod.fst).Nodup →
      g ∉ st.hist x → g ∉ st.hist y →
      CInv g x y st →
      CInv g x y stF
  | [], st, stF, h => by
    simp only [setupQuotas, Option.some.injEq, Except.ok.injEq] at h
    subst h
    exact fun _ _ _ hInv => hInv
  | (poolName, count) :: rest, st, stF, h => by
    rw [setupQuotas] at h
    split at h
    · simp at h
    · next members hlk =>
      dsimp only at h
      split at h
      · simp at h
      · next plF nF stMid heq =>
        intro hnd hpx hpy hInv
        simp only [List.map_cons, List.nodup_cons] at hnd
        by_cases hpn : poolName = P
        · subst hpn
          have hm2 := hlkP
          rw [hlk] at hm2
          have hmm := Option.some.inj hm2
          subst hmm
          have hdd : dedupByName members = members :=
            dedupByName_eq_self members hmnd
          have hxa : x ∈ (dedupByName members).filter
              (fun p => !((unavail p.name).contains g.key)) := by
            refine List.mem_filter.2 ⟨?_, ?_⟩
            · rw [hdd]
              exact hxm
            · rw [havx]
              rfl
          have hya : y ∈ (dedupByName members).filter
              (fun p => !((unavail p.name).contains g.key)) := by
            refine List.mem_filter.2 ⟨?_, ?_⟩
            · rw [hdd]
              exact hym
            · rw [havy]
              rfl
          have hmem : ∀ p ∈ (dedupByName members).filter
              (fun p => !((unavail p.name).contains g.key)), p ∈ members :=
            fun p hp => (dedupByName_sublist members).subset
              ((List.filter_sublist _).subset hp)
          have hPx : ∀ p ∈ (dedupByName members).filter
              (fun p => !((unavail p.name).contains g.key)),
              p.name = x.name → p = x :=
            fun p hp hn => List.inj_on_of_nodup_map hmnd (hmem p hp) hxm hn
          have hPy : ∀ p ∈ (dedupByName members).filter
              (fun p => !((unavail p.name).contains g.key)),
              p.name = y.name → p = y :=
            fun p hp hn => List.inj_on_of_nodup_map hmnd (hmem p hp) hym hn
          have hMid := quotaLoop_c3 choose g count cap x y hxy fuel _ 0 st plF
            nF stMid heq (avail_names_nodup members unavail g) hPx hPy
            (iff_of_true hxa hpx) (iff_of_true hya hpy) hInv
          have hrest := setupQuotas_c3_noxy choose fuel pools unavail g cap x y
            rest _ stF h ?_ hMid
          · exact hrest.1
          · intro pc hpc members2 hlk2 p hp
            have hne : pc.1 ≠ poolName := by
              intro hpeq
              exact hnd.1 (hpeq ▸ List.mem_map_of_mem Prod.fst hpc)
            exact hOthers (pc.1, members2) (lookupPool_mem pools pc.1 members2
              hlk2) hne p hp
        · have hmem : ∀ p ∈ (dedupByName members).filter
              (fun p => !((unavail p.name).contains g.key)), p ∈ members :=
            fun p hp => (dedupByName_sublist members).subset
              ((List.filter_sublist _).subset hp)
          have hOth := hOthers (poolName, members)
            (lookupPool_mem pools poolName members hlk) hpn
          have hnx : x.name ∉ ((dedupByName members).filter
              (fun p => !((unavail p.name).contains g.key))).map Player.name := by
            intro hm
            rcases List.mem_map.1 hm with ⟨p, hp, hpna⟩
            exact (hOth p (hmem p hp)).1 hpna
          have hny : y.name ∉ ((dedupByName members).filter
              (fun p => !((unavail p.name).contains g.key))).map Player.name := by
            intro hm
            rcases List.mem_map.1 hm with ⟨p, hp, hpna⟩
            exact (hOth p (hmem p hp)).2 hpna
          have h1 := quotaLoop_c3_noxy choose g count cap x y fuel _ 0 st plF
            nF stMid heq hnx hny hInv
          have hpx2 : g ∉ stMid.hist x := by
            rw [h1.2.1]
            exact hpx
          have hpy2 : g ∉ stMid.hist y := by
            rw [h1.2.2]
            exact hpy
          exact setupQuotas_c3 choose fuel pools unavail g cap x y hxy P
            membersP hlkP hxm hym hmnd havx havy hOthers rest _ stF h hnd.2
            hpx2 hpy2 h1.1

theorem runGames_c3 (choose : Nat → List Player → Nat) (fuel : Nat)
    (pools : List (String × List Player)) (unavail : String → List String)
    (x y : Player) (hxy : x.name ≠ y.name)
    (P : String) (membersP : List Player)
    (hlkP : lookupPool pools P = some membersP)
    (hxm : x ∈ membersP) (hym : y ∈ membersP)
    (hmnd : (membersP.map Player.name).Nodup)
    (hOthers : ∀ e ∈ pools, e.1 ≠ P → ∀ p ∈ e.2,
      p.name ≠ x.name ∧ p.name ≠ y.name) :
    ∀ (gs : List (GameE × List String)) (s : RunSt) (sF : RunSt),
      runGames choose fuel pools unavail gs s = .ok sF →
      (∀ gp ∈ gs, gp.2 = ([] : List String)) →
      (∀ gp ∈ gs, ((unavail x.name).contains gp.1.key) = false ∧
        ((unavail y.name).contains gp.1.key) = false) →
      ((gs.map (fun e => e.1.gid)).Nodup) →
      (∀ gm ∈ s.hist x, gm.gid ∉ gs.map (fun e => e.1.gid)) →
      (∀ gm ∈ s.hist y, gm.gid ∉ gs.map (fun e => e.1.gid)) →
      (s.hist x).length ≤ (s.hist y).length + 1 →
      (s.hist y).length ≤ (s.hist x).length + 1 →
      (sF.hist x).length ≤ (sF.hist y).length + 1 ∧
        (sF.hist y).length ≤ (sF.hist x).length + 1
  | [], s, sF, h => by
    simp only [runGames, RunOut.ok.injEq] at h
    subst h
    exact fun _ _ _ _ _ h1 h2 => ⟨h1, h2⟩
  | (g, pre) :: rest, s, sF, h => by
    rw [runGames] at h
    split at h
    · exact absurd h (by simp)
    · exact absurd h (by simp)
    · next stF heq =>
      intro hpre hav hgid hfx hfy hl1 hl2
      have hpre0 : pre = [] := hpre (g, pre) (List.mem_cons_self _ _)
      subst hpre0
      obtain ⟨pcs, cap, hpcs, hcap, hsq⟩ :=
        setup_ok_elim choose fuel pools unavail g _ stF heq
      have hheadg : g.gid ∈ ((g, ([] : List String)) :: rest).map
          (fun e => e.1.gid) :=
        List.mem_map_of_mem _ (List.mem_cons_self _ _)
      have hpx0 : g ∉ s.hist x := fun hg => hfx g hg hheadg
      have hpy0 : g ∉ s.hist y := fun hg => hfy g hg hheadg
      have hInv0 : CInv g x y ⟨initRoster [], s.hist, s.ctr, []⟩ := by
        refine ⟨?_, ?_, ?_, ?_, ?_, ?_⟩
        · exact iff_of_false (fun hm => (List.not_mem_nil x.name) hm) hpx0
        · exact iff_of_false (fun hm => (List.not_mem_nil y.name) hm) hpy0
        · show preCnt g s.hist x ≤ preCnt g s.hist y + 1
          rw [preCnt_of_not_mem s.hist x g hpx0,
            preCnt_of_not_mem s.hist y g hpy0]
          exact hl1
        · show preCnt g s.hist y ≤ preCnt g s.hist x + 1
          rw [preCnt_of_not_mem s.hist x g hpx0,
            preCnt_of_not_mem s.hist y g hpy0]
          exact hl2
        · exact fun hg => absurd hg hpx0
        · exact fun hg => absurd hg hpy0
      have havh := hav (g, ([] : List String)) (List.mem_cons_self _ _)
      have hInvF : CInv g x y stF :=
        setupQuotas_c3 choose fuel pools unavail g cap x y hxy P membersP
          hlkP hxm hym hmnd havh.1 havh.2 hOthers pcs _ stF hsq
          (pool_counts_names_nodup g.year pcs hpcs) hpx0 hpy0 hInv0
      have hdF := CInv_diff g x y stF hInvF
      have hndrest : ((rest.map (fun e => e.1.gid)).Nodup) := by
        rw [List.map_cons, List.nodup_cons] at hgid
        exact hgid.2
      have hheadgid : g.gid ∉ rest.map (fun e => e.1.gid) := by
        rw [List.map_cons, List.nodup_cons] at hgid
        exact hgid.1
      have hfx2 : ∀ gm ∈ stF.hist x, gm.gid ∉ rest.map (fun e => e.1.gid) := by
        intro gm hgm hmem
        rcases setupQuotas_hist_sub choose fuel pools unavail g cap pcs _ stF
          hsq x gm hgm with h' | rfl
        · refine hfx gm h' ?_
          rw [List.map_cons]
          exact List.mem_cons_of_mem _ hmem
        · exact hheadgid hmem
      have hfy2 : ∀ gm ∈ stF.hist y, gm.gid ∉ rest.map (fun e => e.1.gid) := by
        intro gm hgm hmem
        rcases setupQuotas_hist_sub choose fuel pools unavail g cap pcs _ stF
          hsq y gm hgm with h' | rfl
        · refine hfy gm h' ?_
          rw [List.map_cons]
          exact List.mem_cons_of_mem _ hmem
        · exact hheadgid hmem
      exact runGames_c3 choose fuel pools unavail x y hxy P membersP hlkP hxm
        hym hmnd hOthers rest _ sF h
        (fun gp hgp => hpre gp (List.mem_cons_of_mem _ hgp))
        (fun gp hgp => hav gp (List.mem_cons_of_mem _ hgp))
        hndrest hfx2 hfy2 hdF.1 hdF.2

/-- C3 counterexample: a run over two events with the locked entry `x`
pre-seeded on both rosters, where `x` is also a `p13-mellan` pool member
with no availability restriction.  The run completes, yet `x` ends with 0
games while fellow pool member `a` (also unrestricted) ends with 2: the
locked name shadows the pool member out of every candidate set without
growing its history, so the fairness gap exceeds 1. -/
theorem C3_counterexample :
    outKind runC = 0 ∧
    (mkP "x" "p13-mellan") ∈ (lookupPool poolsC "p13-mellan").getD [] ∧
    (mkP "a" "p13-mellan") ∈ (lookupPool poolsC "p13-mellan").getD [] ∧
    (∀ k, (noUnav "x").contains k = false) ∧
    (∀ k, (noUnav "a").contains k = false) ∧
    histLenAt runC (mkP "x" "p13-mellan") = some 0 ∧
    histLenAt runC (mkP "a" "p13-mellan") = some 2 ∧
    ¬((2 : Nat) ≤ 0 + 1) :=
  ⟨by decide, by decide, by decide, fun _ => rfl, fun _ => rfl, by decide,
    by decide, by decide⟩

/-- C3 (amended): for any two distinct-named individuals of one pool with
no availability restriction for any event of the run, the final games
counts differ by at most 1, provided the run completes, no event roster is
pre-seeded, events have pairwise distinct identities, the shared pool lists
distinct names, and neither name occurs in any other pool of the
registry. -/
theorem C3_thm (choose : Nat → List Player → Nat) (fuel : Nat)
    (pools : List (String × List Player)) (unavail : String → List String)
    (gs : List (GameE × List String)) (sF : RunSt)
    (x y : Player) (hxy : x.name ≠ y.name)
    (P : String) (membersP : List Player)
    (hlkP : lookupPool pools P = some membersP)
    (hxm : x ∈ membersP) (hym : y ∈ membersP)
    (hmnd : (membersP.map Player.name).Nodup)
    (hOthers : ∀ e ∈ pools, e.1 ≠ P → ∀ p ∈ e.2,
      p.name ≠ x.name ∧ p.name ≠ y.name)
    (hok : runAll choose fuel pools unavail gs = .ok sF)
    (hpre : ∀ gp ∈ gs, gp.2 = ([] : List String))
    (hav : ∀ gp ∈ gs, ((unavail x.name).contains gp.1.key) = false ∧
      ((unavail y.name).contains gp.1.key) = false)
    (hgid : (gs.map (fun e => e.1.gid)).Nodup) :
    (sF.hist x).length ≤ (sF.hist y).length + 1 ∧
      (sF.hist y).length ≤ (sF.hist x).length + 1 :=
  runGames_c3 choose fuel pools unavail x y hxy P membersP hlkP hxm hym hmnd
    hOthers gs ⟨[], fun _ => [], 0⟩ sF hok hpre hav hgid
    (fun gm hgm => absurd hgm (List.not_mem_nil gm))
    (fun gm hgm => absurd hgm (List.not_mem_nil gm))
    (Nat.zero_le _) (Nat.zero_le _)

/-- Witness for C3: the amended fairness bound applied to a concrete
completed two-event run for two `p13-mellan` members. -/
theorem C3_witness :
    ∃ sF, runAll chooseZ 100 poolsStd noUnav [(g13, []), (g13b, [])] =
        RunOut.ok sF ∧
      (sF.hist (mkP "m1" "p13-mellan")).length ≤
        (sF.hist (mkP "m2" "p13-mellan")).length + 1 ∧
      (sF.hist (mkP "m2" "p13-mellan")).length ≤
        (sF.hist (mkP "m1" "p13-mellan")).length + 1 := by
  cases hrun : runAll chooseZ 100 poolsStd noUnav [(g13, []), (g13b, [])] with
  | ok sF =>
    exact ⟨sF, rfl, C3_thm chooseZ 100 poolsStd noUnav
      [(g13, []), (g13b, [])] sF (mkP "m1" "p13-mellan")
      (mkP "m2" "p13-mellan") (by decide) "p13-mellan"
      [mkP "m1" "p13-mellan", mkP "m2" "p13-mellan", mkP "m3" "p13-mellan",
        mkP "m4" "p13-mellan", mkP "m5" "p13-mellan"]
      (by decide) (by decide) (by decide) (by decide) (by decide) hrun
      (by decide) (by decide) (by decide)⟩
  | err m s =>
    exfalso
    have h0 : outKind (runAll chooseZ 100 poolsStd noUnav
        [(g13, []), (g13b, [])]) = 0 := by decide
    rw [hrun] at h0
    simp [outKind] at h0
  | spin =>
    exfalso
    have h0 : outKind (runAll chooseZ 100 poolsStd noUnav
        [(g13, []), (g13b, [])]) = 0 := by decide
    rw [hrun] at h0
    simp [outKind] at h0

end Scheduler
